import Mathlib

/-!
# Verification of the exvia-proto relay node

A shallow embedding of the exvia-proto relay node (TypeScript source) and
proofs about it.  Byte buffers (`Uint8Array`, `Buffer`) are modelled as
`List Nat`; the JavaScript `Map` objects backing the directories are
modelled as association lists with `Map.set` / `Map.delete` semantics
(`mset` replaces the entry in place, `mdel` removes it).  Public keys are
compared by their hex encoding in the source, which is injective on byte
strings, so the model keys the directories by the byte list itself.
Ed25519 signing and verification are external library calls
(`@stablelib/ed25519`) and are modelled by an abstract `Crypto` record of
functions.
-/

set_option maxRecDepth 100000

namespace Exvia

/-! ## Association-list maps with JavaScript `Map` semantics -/

section AssocMap

variable {K V : Type} [DecidableEq K]

/-- `Map.get`: the value stored under `k`, scanning entries in order. -/
def mget (k : K) : List (K × V) → Option V
  | [] => none
  | (a, v) :: t => if a = k then some v else mget k t

/-- `Map.set`: replace the entry for `k` in place, or append a new one. -/
def mset (k : K) (v : V) : List (K × V) → List (K × V)
  | [] => [(k, v)]
  | (a, w) :: t => if a = k then (k, v) :: t else (a, w) :: mset k v t

/-- `Map.delete`: remove the entry for `k`. -/
def mdel (k : K) : List (K × V) → List (K × V)
  | [] => []
  | (a, w) :: t => if a = k then mdel k t else (a, w) :: mdel k t

@[simp] theorem mget_nil (k : K) : mget k ([] : List (K × V)) = none := rfl

@[simp] theorem mget_mset_self (k : K) (v : V) (m : List (K × V)) :
    mget k (mset k v m) = some v := by
  induction m with
  | nil => simp [mget, mset]
  | cons p t ih =>
    obtain ⟨a, w⟩ := p
    by_cases h : a = k <;> simp [mget, mset, h, ih]

theorem mget_mset_ne (k k' : K) (v : V) (m : List (K × V)) (h : k' ≠ k) :
    mget k' (mset k v m) = mget k' m := by
  have hne : ¬k = k' := fun hh => h (Eq.symm hh)
  induction m with
  | nil => simp [mget, mset, hne]
  | cons p t ih =>
    obtain ⟨a, w⟩ := p
    by_cases ha : a = k
    · subst ha
      simp [mget, mset, hne]
    · simp only [mset, if_neg ha]
      by_cases ha' : a = k' <;> simp [mget, ha', ih]

@[simp] theorem mget_mdel_self (k : K) (m : List (K × V)) :
    mget k (mdel k m) = none := by
  induction m with
  | nil => simp [mdel, mget]
  | cons p t ih =>
    obtain ⟨a, w⟩ := p
    by_cases h : a = k
    · simpa [mdel, h] using ih
    · simpa [mdel, mget, h] using ih

theorem mget_mdel_ne (k k' : K) (m : List (K × V)) (h : k' ≠ k) :
    mget k' (mdel k m) = mget k' m := by
  induction m with
  | nil => simp [mdel]
  | cons p t ih =>
    obtain ⟨a, w⟩ := p
    by_cases ha : a = k
    · subst ha
      have hne : ¬a = k' := fun hh => h (Eq.symm hh)
      simp [mdel, mget, hne, ih]
    · by_cases ha' : a = k' <;> simp [mdel, mget, ha, ha', ih, h]

theorem mdel_sublist (k : K) (m : List (K × V)) :
    List.Sublist (mdel k m) m := by
  induction m with
  | nil => simp [mdel]
  | cons p t ih =>
    obtain ⟨a, w⟩ := p
    by_cases h : a = k
    · simp only [mdel, if_pos h]
      exact ih.cons _
    · simp only [mdel, if_neg h]
      exact ih.cons₂ _

theorem mget_isSome_mem {k : K} {v : V} {m : List (K × V)}
    (h : mget k m = some v) : (k, v) ∈ m := by
  induction m with
  | nil => simp [mget] at h
  | cons p t ih =>
    obtain ⟨a, w⟩ := p
    by_cases ha : a = k
    · subst ha
      simp [mget] at h
      simp [h]
    · simp [mget, ha] at h
      exact List.mem_cons_of_mem _ (ih h)

theorem mget_eq_none_iff {k : K} {m : List (K × V)} :
    mget k m = none ↔ k ∉ m.map Prod.fst := by
  induction m with
  | nil => simp [mget]
  | cons p t ih =>
    obtain ⟨a, w⟩ := p
    by_cases ha : a = k
    · subst ha
      simp [mget]
    · rw [List.map_cons]
      simp only [mget, if_neg ha, ih, List.mem_cons]
      constructor
      · intro hn hc
        rcases hc with hc | hc
        · exact ha hc.symm
        · exact hn hc
      · intro hn hc
        exact hn (Or.inr hc)

theorem keys_mset (k : K) (v : V) (m : List (K × V)) :
    (mset k v m).map Prod.fst =
      if (mget k m).isSome then m.map Prod.fst else m.map Prod.fst ++ [k] := by
  induction m with
  | nil => simp [mget, mset]
  | cons p t ih =>
    obtain ⟨a, w⟩ := p
    by_cases ha : a = k
    · subst ha
      simp [mget, mset]
    · simp only [mset, if_neg ha, mget, List.map_cons, ih]
      by_cases hs : (mget k t).isSome <;> simp [hs, ha]

theorem nodup_keys_mset {k : K} {v : V} {m : List (K × V)}
    (h : (m.map Prod.fst).Nodup) : ((mset k v m).map Prod.fst).Nodup := by
  rw [keys_mset]
  by_cases hs : (mget k m).isSome
  · simpa [hs] using h
  · have hnone : mget k m = none := Option.not_isSome_iff_eq_none.mp hs
    have hk : k ∉ m.map Prod.fst := mget_eq_none_iff.mp hnone
    simp only [hs, if_false]
    simp [List.nodup_append, h, hk]

theorem nodup_keys_mdel {k : K} {m : List (K × V)}
    (h : (m.map Prod.fst).Nodup) : ((mdel k m).map Prod.fst).Nodup := by
  exact ((mdel_sublist k m).map Prod.fst).nodup h

end AssocMap

/-! ## Frame codec (src/shared/protocol.ts)

`encodeFrame` / `decodeFrame` translate the byte-level codec.  The header
is 120 bytes: magic, version, type, flags, 4-byte big-endian payload
length, 16 reserved bytes, 32-byte sender id, 64-byte signature. -/

/-- Constant `MAGIC = 0x58`. -/
def MAGIC : Nat := 0x58

/-- Constant `VERSION = 0x01`. -/
def VERSION : Nat := 0x01

/-- `MsgType` enum values. -/
def MsgType.HANDSHAKE : Nat := 1
def MsgType.DATA : Nat := 2
def MsgType.NODE_INFO : Nat := 3
def MsgType.SIGNED_DATA : Nat := 4

/-- `NODE_INFO` subtype constants. -/
def NI.REQUEST_SERVERS : Nat := 2
def NI.RESPONSE_SERVERS : Nat := 3
def NI.ADD_SERVER : Nat := 4
def NI.QUERY_CLIENT : Nat := 5
def NI.QUERY_RESPONSE : Nat := 6

/-- A decoded frame.  `signature` is `none` when the JavaScript object has
no `signature` field (encoders write 64 zero bytes in that case);
`decodeFrame` always returns `some` (the raw 64 header bytes). -/
structure Frame where
  type : Nat
  payload : List Nat
  senderId : List Nat
  signature : Option (List Nat)
  deriving DecidableEq, Repr

/-- Big-endian 32-bit encoding, as `DataView.setUint32(…, false)`. -/
def u32be (n : Nat) : List Nat :=
  [n / 16777216 % 256, n / 65536 % 256, n / 256 % 256, n % 256]

/-- Big-endian 32-bit read of the first four bytes, as
`DataView.getUint32(…, false)`. -/
def readU32be (b : List Nat) : Nat :=
  b.getD 0 0 * 16777216 + b.getD 1 0 * 65536 + b.getD 2 0 * 256 + b.getD 3 0

/-- `TypedArray.set(src)` into a fresh zero window of `n` bytes: the window
holds `src` followed by the remaining zeros.  (The source only ever writes
arrays of at most the window size.) -/
def setW (n : Nat) (src : List Nat) : List Nat :=
  src.take n ++ List.replicate (n - src.length) 0

/-- `encodeFrame`: 120-byte header followed by the payload.  `setUint8`
and `setUint32` truncate, hence the `% 256` / `% 4294967296`. -/
def encodeFrame (f : Frame) : List Nat :=
  MAGIC :: VERSION :: (f.type % 256) :: 0 ::
    (u32be (f.payload.length % 4294967296) ++ List.replicate 16 0 ++
      setW 32 f.senderId ++ setW 64 (f.signature.getD (List.replicate 64 0)) ++
      f.payload)

/-- `decodeFrame`: `none` models a thrown decode error.  Note that the
returned frame's `signature` is always present — the raw 64 header bytes —
even when they are all zero. -/
def decodeFrame (b : List Nat) : Option Frame :=
  if b.length < 120 then none
  else if b.getD 0 0 ≠ MAGIC then none
  else if b.length < 120 + readU32be (b.drop 4) then none
  else some ⟨b.getD 2 0, (b.drop 120).take (readU32be (b.drop 4)),
             (b.drop 24).take 32, some ((b.drop 56).take 64)⟩

theorem setW_of_length_eq {n : Nat} {src : List Nat} (h : src.length = n) :
    setW n src = src := by
  simp [setW, h, List.take_of_length_le (le_of_eq h)]

theorem setW_length {n : Nat} {src : List Nat} (h : src.length ≤ n) :
    (setW n src).length = n := by
  simp [setW, List.length_take, Nat.min_eq_left h]
  omega

theorem readU32be_u32be_append (n : Nat) (rest : List Nat) (h : n < 4294967296) :
    readU32be (u32be n ++ rest) = n := by
  simp [u32be, readU32be, List.getD, List.cons_append]
  omega

/-! ## Relay node state (src/server)

One `NodeState` collects the process-wide mutable state of a relay node:
the connection attribute bags (`isOpen`, `peerType`, and the handshake
engine's pending-challenge map, all keyed by connection identity), the
local-client directory (`InMemoryClientRepository`: `clients` plus the
reverse index `clientConn`), the peer directory
(`InMemoryServerPeerRepository`: `servers` plus `serverConn`), and the
location service's pending-query table.  `nextId` and `timerCtr` allocate
fresh connection ids and `setTimeout` handles. -/

/-- `connection.peerType` values (`'client' | 'server'`). -/
inductive PT where
  | client
  | server
  deriving DecidableEq, Repr

/-- Per-connection attributes: `ws.readyState === OPEN`, the `peerType`
field, and the handshake engine's pending challenge for this connection. -/
structure ConnInfo where
  isOpen : Bool
  peerType : Option PT
  pending : Option (List Nat)
  deriving DecidableEq, Repr

/-- `IClientInfo` (the `authenticatedAt` date is the `authAt` counter). -/
structure ClientInfo where
  publicKey : List Nat
  conn : Nat
  authAt : Nat
  deriving DecidableEq, Repr

/-- `IServerPeerInfo`.  The address is the UTF-8 byte string of the URL. -/
structure PeerInfo where
  publicKey : List Nat
  address : List Nat
  conn : Option Nat
  deriving DecidableEq, Repr

/-- A pending location query: the deep copy of the held frame, the
`setTimeout` handle, and the back-reference to the sender session. -/
structure PendingQ where
  frame : Frame
  timer : Nat
  sender : Nat
  deriving DecidableEq, Repr

/-- The byte string `"unknown"` used as a placeholder peer address. -/
def unknownAddr : List Nat := [117, 110, 107, 110, 111, 119, 110]

/-- The whole mutable state of one relay node. -/
structure NodeState where
  nextId : Nat
  conns : List (Nat × ConnInfo)
  clients : List (List Nat × ClientInfo)
  clientConn : List (Nat × List Nat)
  servers : List (List Nat × PeerInfo)
  serverConn : List (Nat × List Nat)
  pendingQueries : List (List Nat × PendingQ)
  timerCtr : Nat
  deriving DecidableEq, Repr

/-- The freshly started node: empty directories, no sessions. -/
def initState : NodeState := ⟨0, [], [], [], [], [], [], 0⟩

/-- Observable side effects of one handler run. -/
inductive Effect where
  | sendEff (c : Nat) (f : Frame)
  | closeEff (c : Nat)
  | cancelEff (timer : Nat)
  | dialEff (address : List Nat)
  deriving DecidableEq, Repr

def Effect.isCancel : Effect → Bool
  | .cancelEff _ => true
  | _ => false

def Effect.isSend : Effect → Bool
  | .sendEff _ _ => true
  | _ => false

/-- Ed25519 as an abstract record of functions (`@stablelib/ed25519`).
`verify publicKey message signature` and `sign privateKey message`. -/
structure Crypto where
  verify : List Nat → List Nat → List Nat → Bool
  sign : List Nat → List Nat → List Nat

namespace NodeState

def connInfo (s : NodeState) (c : Nat) : Option ConnInfo := mget c s.conns

/-- `connection.isOpen` (false for unknown connections). -/
def isOpen (s : NodeState) (c : Nat) : Bool :=
  match s.connInfo c with
  | some i => i.isOpen
  | none => false

/-- `connection.peerType` (unset for unknown connections). -/
def peerTypeOf (s : NodeState) (c : Nat) : Option PT :=
  match s.connInfo c with
  | some i => i.peerType
  | none => none

/-- `pendingChallenges.get(connection)`. -/
def pendingOf (s : NodeState) (c : Nat) : Option (List Nat) :=
  match s.connInfo c with
  | some i => i.pending
  | none => none

end NodeState

/-- Update the attribute bag of connection `c`, if it exists. -/
def updateConn (c : Nat) (g : ConnInfo → ConnInfo) (s : NodeState) : NodeState :=
  match mget c s.conns with
  | some i => { s with conns := mset c (g i) s.conns }
  | none => s

/-- `connection.close()` as a state change: the socket leaves the OPEN
state at once (any in-flight send on it is discarded). -/
def markClosed (c : Nat) (s : NodeState) : NodeState :=
  updateConn c (fun i => { i with isOpen := false }) s

/-- `pendingChallenges.set` / `.delete` for connection `c`. -/
def setPending (c : Nat) (v : Option (List Nat)) (s : NodeState) : NodeState :=
  updateConn c (fun i => { i with pending := v }) s

/-- Assignment to `connection.peerType`. -/
def setPeerType (c : Nat) (v : Option PT) (s : NodeState) : NodeState :=
  updateConn c (fun i => { i with peerType := v }) s

/-- `connection.close()` together with its observable effect. -/
def doClose (c : Nat) (s : NodeState) : NodeState × List Effect :=
  (markClosed c s, [Effect.closeEff c])

/-- `WebSocketConnection.send`: the frame goes out only while the socket
is OPEN; a send on a closed socket is dropped with a warning. -/
def connSend (s : NodeState) (c : Nat) (f : Frame) : List Effect :=
  if s.isOpen c then [Effect.sendEff c f] else []

/-- `clientRepo.getByConnection`. -/
def clientByConn (s : NodeState) (c : Nat) : Option ClientInfo :=
  (mget c s.clientConn).bind (fun k => mget k s.clients)

/-- `serverRepo.getByConnection`. -/
def serverByConn (s : NodeState) (c : Nat) : Option PeerInfo :=
  (mget c s.serverConn).bind (fun k => mget k s.servers)

/-- `ServerPeerService.broadcastToPeers` (no exclusion in the one call the
core makes): send to every peer record with an attached open session, in
directory order. -/
def broadcastToPeers (s : NodeState) (f : Frame) : List Effect :=
  s.servers.filterMap (fun p =>
    p.2.conn.bind (fun pc =>
      if s.isOpen pc then some (Effect.sendEff pc f) else none))

/-! ### Handshake engine (src/server/handlers/HandshakeHandler.ts) -/

/-- The client block of `HandshakeHandler.handleAuthentication`: close
and remove any existing record under this key, then install the new
client record, its reverse-index entry, and the `'client'`
classification. -/
def installClient (pk : List Nat) (c now : Nat) (s1 : NodeState) :
    NodeState × List Effect :=
  let closeOld : NodeState × List Effect :=
    match mget pk s1.clients with
    | some ec =>
      let sA := markClosed ec.conn s1
      ({ sA with clients := mdel pk sA.clients,
                 clientConn := mdel ec.conn sA.clientConn },
       [Effect.closeEff ec.conn])
    | none => (s1, [])
  let s2 := closeOld.1
  let s3 := { s2 with clients := mset pk ⟨pk, c, now⟩ s2.clients,
                      clientConn := mset c pk s2.clientConn }
  (setPeerType c (some PT.client) s3, closeOld.2)

/-- The outgoing-dial block of `handleAuthentication`: close the old
session of any existing record under this key, then upsert the peer
record (address `"unknown"` when new) and attach this session. -/
def attachServerOutgoing (pk : List Nat) (c : Nat) (s1 : NodeState) :
    NodeState × List Effect :=
  let closeOld : NodeState × List Effect :=
    match mget pk s1.servers with
    | some es =>
      match es.conn with
      | some c0 => (markClosed c0 s1, [Effect.closeEff c0])
      | none => (s1, [])
    | none => (s1, [])
  let s2 := closeOld.1
  let peer : PeerInfo :=
    match mget pk s2.servers with
    | none => ⟨pk, unknownAddr, some c⟩
    | some p => { p with conn := some c }
  ({ s2 with servers := mset pk peer s2.servers,
             serverConn := mset c pk s2.serverConn },
   closeOld.2)

/-- The inbound known-relay block of `handleAuthentication`: close the
old session if attached, re-attach this one, and classify the session as
a peer. -/
def attachServerIncoming (pk : List Nat) (c : Nat) (es : PeerInfo)
    (s1 : NodeState) : NodeState × List Effect :=
  let closeOld : NodeState × List Effect :=
    match es.conn with
    | some c0 => (markClosed c0 s1, [Effect.closeEff c0])
    | none => (s1, [])
  let s2 := closeOld.1
  let s3 := { s2 with servers := mset pk { es with conn := some c } s2.servers,
                      serverConn := mset c pk s2.serverConn }
  (setPeerType c (some PT.server) s3, closeOld.2)

/-- `HandshakeHandler.handleAuthentication`: a 32-byte payload with a
present `signature` field.  Branches exactly as the source: verify, then
split on `connection.peerType === 'server'` (an outgoing dial) versus an
inbound session, check the recorded challenge, and install the peer or
client record (displacing and closing any previous holder of the key). -/
def handleAuthentication (cr : Crypto) (own : List Nat) (now : Nat) (c : Nat)
    (f : Frame) (s : NodeState) : NodeState × List Effect :=
  if cr.verify f.senderId f.payload (f.signature.getD []) = false then doClose c s
  else if s.peerTypeOf c = some PT.server then
    -- outgoing connection this node dialed
    match s.pendingOf c with
    | none => doClose c s
    | some exp =>
      if f.payload ≠ exp then doClose c s
      else
        let r := attachServerOutgoing f.senderId c (setPending c none s)
        (r.1, r.2 ++ connSend r.1 c ⟨MsgType.HANDSHAKE, [1], own, none⟩)
  else
    -- inbound connection (a client or another relay)
    match s.pendingOf c with
    | none => doClose c s
    | some exp =>
      if f.payload ≠ exp then doClose c s
      else
        match mget f.senderId (setPending c none s).servers with
        | some es =>
          -- a known relay connecting to us
          let r := attachServerIncoming f.senderId c es (setPending c none s)
          (r.1, r.2 ++ connSend r.1 c ⟨MsgType.HANDSHAKE, [1], own, none⟩)
        | none =>
          -- a client
          let r := installClient f.senderId c now (setPending c none s)
          (r.1, r.2 ++ connSend r.1 c ⟨MsgType.HANDSHAKE, [1], own, none⟩)

/-- `HandshakeHandler.handle`: dispatch on the shape of the frame.  The
zero-signature branch tests `!frame.signature` — JavaScript truthiness of
the field, i.e. whether the field is absent — not whether the 64 bytes
are zero. -/
def handshakeHandle (cr : Crypto) (priv own : List Nat) (now : Nat) (c : Nat)
    (f : Frame) (s : NodeState) : NodeState × List Effect :=
  if f.payload.length = 32 ∧ f.signature = none then
    -- challenge from a peer (no signature field): sign it and echo it back
    (s, connSend s c ⟨MsgType.HANDSHAKE, f.payload, own, some (cr.sign priv f.payload)⟩)
  else if f.payload.length = 32 ∧ f.signature ≠ none then
    handleAuthentication cr own now c f s
  else if f.payload.length = 1 ∧ f.payload.getD 0 0 = 1 then
    (s, [])
  else
    doClose c s

/-! ### Location service (src/server/services/ClientLocationService.ts) -/

/-- `ClientLocationService.forwardToRemoteClient`: drop if a query for
this addressee is already pending, else park a deep copy of the frame,
arm a timer, and broadcast `QUERY_CLIENT` to every open peer session. -/
def forwardToRemoteClient (own targetKey : List Nat) (f : Frame) (senderConn : Nat)
    (s : NodeState) : NodeState × List Effect :=
  if (mget targetKey s.pendingQueries).isSome then (s, [])
  else
    let frameCopy : Frame := ⟨f.type, f.payload, f.senderId, f.signature⟩
    let s1 := { s with
      pendingQueries := mset targetKey ⟨frameCopy, s.timerCtr, senderConn⟩ s.pendingQueries,
      timerCtr := s.timerCtr + 1 }
    let queryPayload := NI.QUERY_CLIENT :: setW 32 targetKey
    (s1, broadcastToPeers s1 ⟨MsgType.NODE_INFO, queryPayload, own, none⟩)

/-- `ClientLocationService.handleQueryResponse`: consume the pending
entry for the named addressee (cancelling its timer) and, on a found
status with a connected owning peer, forward the held frame as `DATA`
with its full payload. -/
def handleQueryResponse (f : Frame) (s : NodeState) : NodeState × List Effect :=
  if f.payload.length < 34 then (s, [])
  else
    let status := f.payload.getD 1 0
    let targetKey := (f.payload.drop 2).take 32
    match mget targetKey s.pendingQueries with
    | none => (s, [])
    | some pending =>
      let s1 := { s with pendingQueries := mdel targetKey s.pendingQueries }
      let cancels := [Effect.cancelEff pending.timer]
      if status = 1 ∧ 66 ≤ f.payload.length then
        let serverKey := (f.payload.drop 34).take 32
        match mget serverKey s1.servers with
        | some ts =>
          match ts.conn with
          | some pc =>
            (s1, cancels ++ connSend s1 pc
              ⟨MsgType.DATA, pending.frame.payload, pending.frame.senderId, none⟩)
          | none => (s1, cancels)
        | none => (s1, cancels)
      else (s1, cancels)

/-! ### Data router (src/server/handlers/DataHandler.ts) -/

/-- `DataHandler.handle`: close unauthenticated senders; drop short
payloads; deliver locally with the 32-byte addressee prefix stripped —
always as a `DATA` frame — or hand off to the location service. -/
def dataHandle (own : List Nat) (c : Nat) (f : Frame) (s : NodeState) :
    NodeState × List Effect :=
  if clientByConn s c = none ∧ serverByConn s c = none then doClose c s
  else if f.payload.length < 32 then (s, [])
  else
    let targetKey := f.payload.take 32
    match mget targetKey s.clients with
    | some tc =>
      (s, connSend s tc.conn ⟨MsgType.DATA, f.payload.drop 32, f.senderId, none⟩)
    | none => forwardToRemoteClient own targetKey f c s

/-! ### Node-info / gossip handler (NodeInfoHandler) -/

/-- `NodeInfoHandler.handleRequestServers`: the `RESPONSE_SERVERS` body
listing every peer record with a usable address. -/
def requestServersPayload (s : NodeState) : List Nat :=
  let srvs := s.servers.filter (fun p => p.2.address ≠ [] ∧ p.2.address ≠ unknownAddr)
  NI.RESPONSE_SERVERS :: (u32be (srvs.length % 65536)).drop 2 ++
    (srvs.map (fun p => setW 32 p.2.publicKey ++ [p.2.address.length % 256] ++ p.2.address)).flatten

/-- The `RESPONSE_SERVERS` parse loop (`handleResponseServers`): walk
`count` advertised entries, inserting a sessionless peer record and
scheduling a dial for each unknown key that is not our own. -/
def respServersLoop (own payload : List Nat) (i offset : Nat) (s : NodeState) :
    NodeState × List Effect :=
  match i with
  | 0 => (s, [])
  | i + 1 =>
    -- entry layout: 32-byte pubkey at `offset`, a length byte, then the
    -- address bytes; the loop breaks on any bounds failure
    if payload.length < offset + 32 then (s, [])
    else if payload.length ≤ offset + 32 then (s, [])
    else if payload.length < offset + 33 + payload.getD (offset + 32) 0 then (s, [])
    else
      let rest := respServersLoop own payload i
        (offset + 33 + payload.getD (offset + 32) 0)
        (if (mget ((payload.drop offset).take 32) s.servers).isSome = false ∧
            (payload.drop offset).take 32 ≠ own then
          { s with
              servers :=
                mset ((payload.drop offset).take 32)
                  (⟨(payload.drop offset).take 32,
                    (payload.drop (offset + 33)).take (payload.getD (offset + 32) 0),
                    none⟩ : PeerInfo) s.servers }
        else s)
      (rest.1,
       (if (mget ((payload.drop offset).take 32) s.servers).isSome = false ∧
            (payload.drop offset).take 32 ≠ own then
          [Effect.dialEff
            ((payload.drop (offset + 33)).take (payload.getD (offset + 32) 0))]
        else []) ++ rest.2)

/-- `NodeInfoHandler.handle` with its five subtype branches; unknown
subtypes (and empty payloads) only log a warning. -/
def nodeInfoHandle (own selfAddr : List Nat) (c : Nat) (f : Frame) (s : NodeState) :
    NodeState × List Effect :=
  if clientByConn s c = none ∧ serverByConn s c = none then doClose c s
  else if f.payload.length = 0 then (s, [])
  else if f.payload.getD 0 0 = NI.REQUEST_SERVERS then
    (s, connSend s c ⟨MsgType.NODE_INFO, requestServersPayload s, own, none⟩)
  else if f.payload.getD 0 0 = NI.RESPONSE_SERVERS then
    -- only honored from an authenticated peer session
    if serverByConn s c = none then (s, [])
    else if f.payload.length < 3 then (s, [])
    else
      respServersLoop own f.payload
        (f.payload.getD 1 0 * 256 + f.payload.getD 2 0) 3 s
  else if f.payload.getD 0 0 = NI.ADD_SERVER then
    if f.payload.length < 2 then (s, [])
    else if f.payload.length < 2 + f.payload.getD 1 0 then (s, [])
    else if s.servers.any
        (fun p => p.2.address = (f.payload.drop 2).take (f.payload.getD 1 0)) then
      (s, [])
    else if (f.payload.drop 2).take (f.payload.getD 1 0) = selfAddr then (s, [])
    else (s, [Effect.dialEff ((f.payload.drop 2).take (f.payload.getD 1 0))])
  else if f.payload.getD 0 0 = NI.QUERY_CLIENT then
    if f.payload.length < 33 then (s, [])
    else
      (s, connSend s c ⟨MsgType.NODE_INFO,
        (if (mget ((f.payload.drop 1).take 32) s.clients).isSome then
          NI.QUERY_RESPONSE :: 1 ::
            (setW 32 ((f.payload.drop 1).take 32) ++ setW 32 own)
        else
          NI.QUERY_RESPONSE :: 0 :: setW 32 ((f.payload.drop 1).take 32)),
        own, none⟩)
  else if f.payload.getD 0 0 = NI.QUERY_RESPONSE then
    handleQueryResponse f s
  else
    (s, [])

/-! ### Message dispatcher (MessageDispatcher) -/

/-- `MessageDispatcher.dispatch`: route one decoded frame by type;
unknown types close the session. -/
def dispatch (cr : Crypto) (priv own selfAddr : List Nat) (now : Nat) (c : Nat)
    (f : Frame) (s : NodeState) : NodeState × List Effect :=
  if f.type = MsgType.HANDSHAKE then handshakeHandle cr priv own now c f s
  else if f.type = MsgType.DATA then dataHandle own c f s
  else if f.type = MsgType.NODE_INFO then nodeInfoHandle own selfAddr c f s
  else if f.type = MsgType.SIGNED_DATA then dataHandle own c f s
  else doClose c s

/-! ### Session-level events (RelayServer / WebSocketServerAdapter /
ServerPeerService) -/

/-- A new inbound session (`RelayServer.onConnection`): allocate a fresh
connection, record the 32-byte challenge, classification unset. -/
def acceptConn (ch : List Nat) (s : NodeState) : NodeState :=
  { s with nextId := s.nextId + 1,
           conns := mset s.nextId ⟨true, none, some ch⟩ s.conns }

/-- A session this node dialed (`ServerPeerService.connectToPeer`, at
`onopen`): like `acceptConn` but pre-marked `'server'`. -/
def dialConn (ch : List Nat) (s : NodeState) : NodeState :=
  { s with nextId := s.nextId + 1,
           conns := mset s.nextId ⟨true, some PT.server, some ch⟩ s.conns }

/-- Transport close of an inbound session: the adapter only logs; no
directory is touched. -/
def closeInbound (c : Nat) (s : NodeState) : NodeState :=
  markClosed c s

/-- Transport close of an outbound peer session
(`ServerPeerService.connectToPeer`'s `onclose`): the peer record attached
to this session is removed from the peer directory. -/
def closeOutbound (c : Nat) (s : NodeState) : NodeState :=
  let s1 := markClosed c s
  { s1 with servers := s1.servers.filter (fun p => p.2.conn ≠ some c),
            serverConn := mdel c s1.serverConn }

/-- One atomic event of the relay node's event loop. -/
inductive Step (cr : Crypto) (priv own selfAddr : List Nat) :
    NodeState → NodeState → Prop where
  | accept (ch : List Nat) (s : NodeState) : Step cr priv own selfAddr s (acceptConn ch s)
  | dial (ch : List Nat) (s : NodeState) : Step cr priv own selfAddr s (dialConn ch s)
  | deliver (c : Nat) (f : Frame) (now : Nat) (s : NodeState)
      (hopen : s.isOpen c = true) :
      Step cr priv own selfAddr s (dispatch cr priv own selfAddr now c f s).1
  | closeIn (c : Nat) (s : NodeState) : Step cr priv own selfAddr s (closeInbound c s)
  | closeOut (c : Nat) (s : NodeState) : Step cr priv own selfAddr s (closeOutbound c s)
  | queryTimeout (k : List Nat) (s : NodeState) :
      Step cr priv own selfAddr s { s with pendingQueries := mdel k s.pendingQueries }

/-- States reachable from a fresh node. -/
def Reachable (cr : Crypto) (priv own selfAddr : List Nat) (s : NodeState) : Prop :=
  Relation.ReflTransGen (Step cr priv own selfAddr) initState s

/-- The local-client directory consistency invariant (the amended form of
claim C3): keys are unique; every record is stored under its own public
key and registered in the reverse index; every reverse-index entry is
backed by the record it points to; a record's session has no pending
challenge and is classified as a client; every *open* session classified
as a client is in the reverse index; and every known session id is below
the allocator. -/
def ClientInv (s : NodeState) : Prop :=
  ((s.clients.map Prod.fst).Nodup) ∧
  (∀ k r, mget k s.clients = some r → r.publicKey = k) ∧
  (∀ k r, mget k s.clients = some r → mget r.conn s.clientConn = some k) ∧
  (∀ c k, mget c s.clientConn = some k →
    ∃ r, mget k s.clients = some r ∧ r.conn = c) ∧
  (∀ k r, mget k s.clients = some r →
    s.pendingOf r.conn = none ∧ s.peerTypeOf r.conn = some PT.client) ∧
  (∀ c, s.isOpen c = true → s.peerTypeOf c = some PT.client →
    ∃ k, mget c s.clientConn = some k) ∧
  (∀ c, (mget c s.conns).isSome = true → c < s.nextId)

/-! ## Concrete instances used in witness and counterexample theorems -/

/-- A 32-byte challenge. -/
def exChal : List Nat := List.replicate 32 7

/-- Two 32-byte client public keys and the node's own key. -/
def exKeyA : List Nat := List.replicate 32 9
def exKeyB : List Nat := List.replicate 32 11
def exOwnKey : List Nat := List.replicate 32 13

/-- A crypto record whose verification always succeeds — the abstraction
of running the handshake with honestly produced signatures. -/
def exCryptoOk : Crypto := ⟨fun _ _ _ => true, fun _ _ => List.replicate 64 1⟩

/-- A crypto record whose verification always fails — in particular, an
all-zero 64-byte string is never a valid Ed25519 signature for an
honestly generated key, so this is the behaviour of `verify` on the
frames at issue in the zero-signature handshake scenario. -/
def exCryptoReject : Crypto := ⟨fun _ _ _ => false, fun _ _ => List.replicate 64 1⟩

/-- A state with two authenticated clients, `exKeyA` on session 0 and
`exKeyB` on session 1, both open. -/
def exTwoClients : NodeState :=
  { nextId := 2,
    conns := [(0, ⟨true, some PT.client, none⟩), (1, ⟨true, some PT.client, none⟩)],
    clients := [(exKeyA, ⟨exKeyA, 0, 0⟩), (exKeyB, ⟨exKeyB, 1, 0⟩)],
    clientConn := [(0, exKeyA), (1, exKeyB)],
    servers := [],
    serverConn := [],
    pendingQueries := [],
    timerCtr := 0 }

/-- `exTwoClients` extended with an authenticated peer on session 2 and a
pending location query for `exKeyB` holding a parked frame. -/
def exWithPending : NodeState :=
  { exTwoClients with
    nextId := 3,
    conns := exTwoClients.conns ++ [(2, ⟨true, some PT.server, none⟩)],
    servers := [(exOwnKey, ⟨exOwnKey, unknownAddr, some 2⟩)],
    serverConn := [(2, exOwnKey)],
    pendingQueries := [(exKeyB, ⟨⟨MsgType.DATA, exKeyB ++ [42], exKeyA, none⟩, 5, 0⟩)] }

/-- The frame a dialing relay puts on the wire first: a `HANDSHAKE`
challenge with all-zero sender id and no signature field (the encoder
therefore writes 64 zero bytes). -/
def exWireChallenge : List Nat :=
  encodeFrame ⟨MsgType.HANDSHAKE, exChal, List.replicate 32 0, none⟩

/-- What `decodeFrame` makes of `exWireChallenge`: the signature field is
present — 64 zero bytes. -/
def exDecodedChallenge : Frame :=
  ⟨MsgType.HANDSHAKE, exChal, List.replicate 32 0, some (List.replicate 64 0)⟩

/-- A fresh inbound session (id 0) that has just been sent `exChal`. -/
def exFreshConn : NodeState := acceptConn exChal initState

/-- A `SIGNED_DATA` frame from client A addressed to client B. -/
def exSignedDataFrame : Frame :=
  ⟨MsgType.SIGNED_DATA, exKeyB ++ [42, 43], exKeyA, none⟩

/-- The client-authentication frame for `exKeyA` answering `exChal`. -/
def exAuthFrameA : Frame :=
  ⟨MsgType.HANDSHAKE, exChal, exKeyA, some (List.replicate 64 1)⟩

/-- The four-event run for claim C3: client `exKeyA` authenticates on
session 0, then re-authenticates on session 1, displacing the record. -/
def exReauth1 : NodeState := acceptConn exChal initState
def exReauth2 : NodeState :=
  (dispatch exCryptoOk [] exOwnKey [] 5 0 exAuthFrameA exReauth1).1
def exReauth3 : NodeState := acceptConn exChal exReauth2
def exReauth4 : NodeState :=
  (dispatch exCryptoOk [] exOwnKey [] 6 1 exAuthFrameA exReauth3).1

/-- A `DATA` frame from client A addressed to client B. -/
def exDataFrame : Frame := ⟨MsgType.DATA, exKeyB ++ [42, 43], exKeyA, none⟩

/-- A frame for exercising the codec roundtrip. -/
def exRoundFrame : Frame := ⟨2, [7, 8], exKeyA, some (List.replicate 64 3)⟩

/-- A `QUERY_RESPONSE` with status found: target `exKeyB`, owner `exOwnKey`. -/
def exQueryResponseFrame : Frame :=
  ⟨MsgType.NODE_INFO, NI.QUERY_RESPONSE :: 1 :: (exKeyB ++ exOwnKey), exOwnKey, none⟩

/-- A `QUERY_CLIENT` for target `exKeyB`. -/
def exQueryClientFrame : Frame :=
  ⟨MsgType.NODE_INFO, NI.QUERY_CLIENT :: exKeyB, exOwnKey, none⟩

/-- A `NODE_INFO` frame with an unknown subtype byte (9). -/
def exUnknownNodeInfo : Frame := ⟨MsgType.NODE_INFO, [9, 1, 2], exKeyA, none⟩

/-! ## Codec lemmas and theorems (claims C6, C7) -/

theorem encodeFrame_split (f : Frame) (hsid : f.senderId.length = 32)
    (hsig : (f.signature.getD (List.replicate 64 0)).length = 64) :
    encodeFrame f =
      ([MAGIC, VERSION, f.type % 256, 0] ++ u32be (f.payload.length % 4294967296) ++
        List.replicate 16 0) ++
      (f.senderId ++ ((f.signature.getD (List.replicate 64 0)) ++ f.payload)) := by
  unfold encodeFrame
  rw [setW_of_length_eq hsid, setW_of_length_eq hsig]
  simp only [List.cons_append, List.nil_append, List.append_assoc]

theorem encodeFrame_length (f : Frame) (hsid : f.senderId.length = 32)
    (hsig : (f.signature.getD (List.replicate 64 0)).length = 64) :
    (encodeFrame f).length = 120 + f.payload.length := by
  rw [encodeFrame_split f hsid hsig]
  generalize hg : f.signature.getD (List.replicate 64 0) = sg at hsig
  simp [u32be, hsid, hsig]
  omega

/-- C6 — Encode-then-decode is the identity on type, payload and sender
id, the encoded length is `120 + payload.length`, and the decoded
signature equals the encoded one whenever a signature was present and not
all zero (a decoded frame always carries the raw 64 signature bytes). -/
theorem encode_decode_identity (f : Frame)
    (hsid : f.senderId.length = 32)
    (hsig : (f.signature.getD (List.replicate 64 0)).length = 64)
    (hlen : f.payload.length < 4294967296)
    (hty : f.type < 256) :
    (encodeFrame f).length = 120 + f.payload.length ∧
    decodeFrame (encodeFrame f) =
      some ⟨f.type, f.payload, f.senderId,
            some (f.signature.getD (List.replicate 64 0))⟩ ∧
    (∀ sg, f.signature = some sg → sg ≠ List.replicate 64 0 →
      (decodeFrame (encodeFrame f)).bind Frame.signature = some sg) := by
  have hL := encodeFrame_length f hsid hsig
  have hsplit := encodeFrame_split f hsid hsig
  set sg := f.signature.getD (List.replicate 64 0) with hsg
  set A : List Nat := [MAGIC, VERSION, f.type % 256, 0] ++
    u32be (f.payload.length % 4294967296) ++ List.replicate 16 0 with hA
  have hALen : A.length = 24 := by simp [hA, u32be]
  have hdrop4 : (encodeFrame f).drop 4 =
      u32be (f.payload.length % 4294967296) ++
        (List.replicate 16 0 ++ (f.senderId ++ (sg ++ f.payload))) := by
    rw [hsplit, hA]
    simp [List.cons_append, List.append_assoc]
  have hread : readU32be ((encodeFrame f).drop 4) = f.payload.length := by
    rw [hdrop4, readU32be_u32be_append _ _ (Nat.mod_lt _ (by omega))]
    exact Nat.mod_eq_of_lt hlen
  have hdrop24 : (encodeFrame f).drop 24 = f.senderId ++ (sg ++ f.payload) := by
    rw [hsplit, ← hALen, List.drop_left]
  have hdrop56 : (encodeFrame f).drop 56 = sg ++ f.payload := by
    have : (encodeFrame f).drop 56 = ((encodeFrame f).drop 24).drop 32 := by
      rw [List.drop_drop]
    rw [this, hdrop24, ← hsid, List.drop_left]
  have hdrop120 : (encodeFrame f).drop 120 = f.payload := by
    have : (encodeFrame f).drop 120 = ((encodeFrame f).drop 56).drop 64 := by
      rw [List.drop_drop]
    rw [this, hdrop56, ← hsig, List.drop_left]
  have hmagic : (encodeFrame f).getD 0 0 = MAGIC := by
    rw [hsplit, hA]
    simp [List.cons_append, List.getD]
  have hmod : f.type % 256 = f.type := Nat.mod_eq_of_lt hty
  have htype : (encodeFrame f).getD 2 0 = f.type := by
    rw [hsplit, hA]
    simp [List.cons_append, List.getD, hmod]
  have hdec : decodeFrame (encodeFrame f) =
      some ⟨f.type, f.payload, f.senderId, some sg⟩ := by
    rw [decodeFrame]
    rw [if_neg (by omega : ¬(encodeFrame f).length < 120)]
    rw [if_neg (show ¬(encodeFrame f).getD 0 0 ≠ MAGIC by rw [hmagic]; simp)]
    rw [hread]
    rw [if_neg (by omega : ¬(encodeFrame f).length < 120 + f.payload.length)]
    rw [htype, hdrop120, hdrop24, hdrop56, List.take_length,
        List.take_left' hsid, List.take_left' hsig]
  refine ⟨hL, hdec, ?_⟩
  intro sgiven hgiven _
  rw [hdec]
  simp [hsg, hgiven]

/-- C7 — `decodeFrame` fails exactly on a buffer shorter than 120 bytes,
or shorter than 120 plus the big-endian length read at bytes 4..8, or
whose first byte is not the magic `0x58`; on every other input it returns
a frame. -/
theorem decode_failure_characterization (b : List Nat) :
    decodeFrame b = none ↔
      b.length < 120 ∨ b.length < 120 + readU32be (b.drop 4) ∨
        b.getD 0 0 ≠ MAGIC := by
  rw [decodeFrame]
  by_cases h1 : b.length < 120
  · rw [if_pos h1]
    exact iff_of_true rfl (Or.inl h1)
  · rw [if_neg h1]
    by_cases h2 : b.getD 0 0 ≠ MAGIC
    · rw [if_pos h2]
      exact iff_of_true rfl (Or.inr (Or.inr h2))
    · rw [if_neg h2]
      by_cases h3 : b.length < 120 + readU32be (b.drop 4)
      · rw [if_pos h3]
        exact iff_of_true rfl (Or.inr (Or.inl h3))
      · rw [if_neg h3]
        refine iff_of_false (by simp) ?_
        rintro (h | h | h)
        · exact h1 h
        · exact h3 h
        · exact h2 h

/-- C6 witness: the roundtrip evaluated at a concrete frame. -/
theorem encode_decode_identity_witness :
    (encodeFrame exRoundFrame).length = 120 + exRoundFrame.payload.length ∧
    decodeFrame (encodeFrame exRoundFrame) =
      some ⟨exRoundFrame.type, exRoundFrame.payload, exRoundFrame.senderId,
            some (exRoundFrame.signature.getD (List.replicate 64 0))⟩ ∧
    (∀ sg, exRoundFrame.signature = some sg → sg ≠ List.replicate 64 0 →
      (decodeFrame (encodeFrame exRoundFrame)).bind Frame.signature = some sg) :=
  encode_decode_identity exRoundFrame (by decide) (by decide) (by decide) (by decide)

/-! ## Claim C1: the zero-signature handshake branch is unreachable from
the wire — the relay closes instead of replying -/

/-- C1 — A `HANDSHAKE` frame whose payload is 32 bytes and whose 64
signature bytes are all zero (exactly what a dialing relay emits, and
what the spec says must be answered by signing the payload) decodes to a
frame whose `signature` field is *present* (the raw zero bytes), so
`HandshakeHandler.handle`'s `!frame.signature` test routes it to the
authentication branch; verification of the all-zero signature fails and
the relay closes the session, sending nothing. -/
theorem zero_signature_handshake_closes :
    decodeFrame exWireChallenge = some exDecodedChallenge ∧
    exDecodedChallenge.signature = some (List.replicate 64 0) ∧
    dispatch exCryptoReject (List.replicate 32 1) exOwnKey [] 0 0
        exDecodedChallenge exFreshConn =
      (markClosed 0 exFreshConn, [Effect.closeEff 0]) :=
  ⟨by decide, by decide, by decide⟩

/-! ## Claim C2: local delivery strips the addressee and retypes to DATA -/

/-- C2 (amended) — A `DATA` or `SIGNED_DATA` frame from an authenticated
session whose first 32 payload bytes name a local client with an open
session produces exactly one outbound frame to that client's session, of
type `DATA` (regardless of the input type), with the 32-byte addressee
prefix stripped, the sender id preserved byte-for-byte, and no
signature. -/
theorem data_forward_strips_for_local (cr : Crypto) (priv own selfAddr : List Nat)
    (now c : Nat) (f : Frame) (s : NodeState) (tc : ClientInfo)
    (hauth : ¬(clientByConn s c = none ∧ serverByConn s c = none))
    (hty : f.type = MsgType.DATA ∨ f.type = MsgType.SIGNED_DATA)
    (hlen : 32 ≤ f.payload.length)
    (htc : mget (f.payload.take 32) s.clients = some tc)
    (hopen : s.isOpen tc.conn = true) :
    dispatch cr priv own selfAddr now c f s =
      (s, [Effect.sendEff tc.conn
            ⟨MsgType.DATA, f.payload.drop 32, f.senderId, none⟩]) := by
  have hdh : dataHandle own c f s =
      (s, [Effect.sendEff tc.conn
            ⟨MsgType.DATA, f.payload.drop 32, f.senderId, none⟩]) := by
    unfold dataHandle
    rw [if_neg hauth, if_neg (by omega : ¬f.payload.length < 32)]
    simp only [htc]
    simp [connSend, hopen]
  rcases hty with h | h <;>
    simp [dispatch, h, MsgType.HANDSHAKE, MsgType.DATA, MsgType.NODE_INFO,
      MsgType.SIGNED_DATA, hdh]

/-- C2 witness: a concrete `DATA` frame delivered between two local
clients. -/
theorem data_forward_strips_for_local_witness :
    dispatch exCryptoOk [] exOwnKey [] 0 0 exDataFrame exTwoClients =
      (exTwoClients, [Effect.sendEff 1
        ⟨MsgType.DATA, [42, 43], exKeyA, none⟩]) := by
  have h := data_forward_strips_for_local exCryptoOk [] exOwnKey [] 0 0
    exDataFrame exTwoClients ⟨exKeyB, 1, 0⟩ (by decide) (Or.inl (by decide))
    (by decide) (by decide) (by decide)
  simpa using h

/-- C2 counterexample: the claim as stated says the outbound frame has
the *same type* as the input; for a `SIGNED_DATA` input the code sends
`MsgType.DATA` instead. -/
theorem data_forward_not_same_type :
    dispatch exCryptoOk [] exOwnKey [] 0 0 exSignedDataFrame exTwoClients =
      (exTwoClients, [Effect.sendEff 1
        ⟨MsgType.DATA, [42, 43], exKeyA, none⟩]) ∧
    MsgType.DATA ≠ exSignedDataFrame.type :=
  ⟨by decide, by decide⟩

/-! ## Claim C5: at most one pending query per addressee; duplicates
dropped silently -/

/-- C5 — A call to forward a frame for an addressee that already has a
pending query returns with the state unchanged — no table modification,
no broadcast, no send: the frame is dropped, not queued. -/
theorem duplicate_pending_query_dropped (own targetKey : List Nat) (f : Frame)
    (senderConn : Nat) (s : NodeState)
    (hdup : (mget targetKey s.pendingQueries).isSome = true) :
    forwardToRemoteClient own targetKey f senderConn s = (s, []) := by
  unfold forwardToRemoteClient
  rw [if_pos hdup]

/-- C5 witness: a second frame for `exKeyB` while its query is pending. -/
theorem duplicate_pending_query_dropped_witness :
    forwardToRemoteClient exOwnKey exKeyB exSignedDataFrame 0 exWithPending =
      (exWithPending, []) :=
  duplicate_pending_query_dropped exOwnKey exKeyB exSignedDataFrame 0
    exWithPending (by decide)

/-! ## Claim C4: a QUERY_RESPONSE consumes the pending entry exactly once -/

theorem handleQueryResponse_found (f : Frame) (s : NodeState) (e : PendingQ)
    (hlen : 34 ≤ f.payload.length)
    (hpend : mget ((f.payload.drop 2).take 32) s.pendingQueries = some e) :
    handleQueryResponse f s =
      ({ s with pendingQueries := mdel ((f.payload.drop 2).take 32) s.pendingQueries },
       Effect.cancelEff e.timer ::
         (if f.payload.getD 1 0 = 1 ∧ 66 ≤ f.payload.length then
            match mget ((f.payload.drop 34).take 32) s.servers with
            | some ts =>
              match ts.conn with
              | some pc => connSend s pc
                  ⟨MsgType.DATA, e.frame.payload, e.frame.senderId, none⟩
              | none => []
            | none => []
          else [])) := by
  unfold handleQueryResponse
  rw [if_neg (by omega : ¬f.payload.length < 34)]
  simp only [hpend]
  by_cases hst : f.payload.getD 1 0 = 1 ∧ 66 ≤ f.payload.length
  · rw [if_pos hst, if_pos hst]
    cases hms : mget ((f.payload.drop 34).take 32) s.servers with
    | none => simp
    | some ts =>
      cases hcn : ts.conn with
      | none => simp [hcn]
      | some pc =>
        simp only [hcn]
        simp [connSend, NodeState.isOpen, NodeState.connInfo]
  · rw [if_neg hst, if_neg hst]

/-- C4 — When a `QUERY_RESPONSE` names an addressee with a pending-query
entry, the entry is removed and its timer cancelled exactly once,
regardless of status; if the status is found and the 32-byte owner names
a peer with an open session, exactly one `DATA` frame goes to that peer
carrying the held frame's full payload (addressee prefix included) and
its original sender id; a later `QUERY_RESPONSE` for the same addressee
finds no entry and changes nothing. -/
theorem query_response_first_wins (f : Frame) (s : NodeState) (e : PendingQ)
    (tgt : List Nat)
    (htgt : tgt = (f.payload.drop 2).take 32)
    (hlen : 34 ≤ f.payload.length)
    (hpend : mget tgt s.pendingQueries = some e) :
    (handleQueryResponse f s).1 =
      { s with pendingQueries := mdel tgt s.pendingQueries } ∧
    ((handleQueryResponse f s).2.filter Effect.isCancel) =
      [Effect.cancelEff e.timer] ∧
    (f.payload.getD 1 0 = 1 → 66 ≤ f.payload.length →
      ∀ ps pc, mget ((f.payload.drop 34).take 32) s.servers = some ps →
        ps.conn = some pc → s.isOpen pc = true →
        (handleQueryResponse f s).2 =
          [Effect.cancelEff e.timer,
           Effect.sendEff pc
             ⟨MsgType.DATA, e.frame.payload, e.frame.senderId, none⟩]) ∧
    (∀ f' : Frame, (f'.payload.drop 2).take 32 = tgt →
      handleQueryResponse f' (handleQueryResponse f s).1 =
        ((handleQueryResponse f s).1, [])) := by
  subst htgt
  have hchar := handleQueryResponse_found f s e hlen hpend
  refine ⟨by rw [hchar], ?_, ?_, ?_⟩
  · rw [hchar]
    by_cases hst : f.payload.getD 1 0 = 1 ∧ 66 ≤ f.payload.length
    · rw [if_pos hst]
      cases hms : mget ((f.payload.drop 34).take 32) s.servers with
      | none => simp [Effect.isCancel]
      | some ts =>
        cases hcn : ts.conn with
        | none => simp [hcn, Effect.isCancel]
        | some pc =>
          simp only [hcn]
          unfold connSend
          by_cases ho : s.isOpen pc = true <;>
            simp [ho, Effect.isCancel]
    · rw [if_neg hst]
      simp [Effect.isCancel]
  · intro h1 h66 ps pc hps hcn ho
    rw [hchar]
    rw [if_pos ⟨h1, h66⟩]
    simp only [hps, hcn]
    simp [connSend, ho]
  · intro f' htgt'
    by_cases hl' : f'.payload.length < 34
    · rw [hchar]
      unfold handleQueryResponse
      rw [if_pos hl']
    · rw [hchar]
      unfold handleQueryResponse
      rw [if_neg hl']
      simp only [htgt']
      simp [mget_mdel_self]

/-- C4 witness: the found response for `exKeyB` consumes the pending
entry of `exWithPending` and forwards the held frame to peer session 2. -/
theorem query_response_first_wins_witness :
    (handleQueryResponse exQueryResponseFrame exWithPending).1 =
      { exWithPending with
        pendingQueries := mdel exKeyB exWithPending.pendingQueries } ∧
    ((handleQueryResponse exQueryResponseFrame exWithPending).2.filter
      Effect.isCancel) = [Effect.cancelEff 5] ∧
    (exQueryResponseFrame.payload.getD 1 0 = 1 →
      66 ≤ exQueryResponseFrame.payload.length →
      ∀ ps pc,
        mget ((exQueryResponseFrame.payload.drop 34).take 32)
          exWithPending.servers = some ps →
        ps.conn = some pc → exWithPending.isOpen pc = true →
        (handleQueryResponse exQueryResponseFrame exWithPending).2 =
          [Effect.cancelEff 5,
           Effect.sendEff pc
             ⟨MsgType.DATA, exKeyB ++ [42], exKeyA, none⟩]) ∧
    (∀ f' : Frame, (f'.payload.drop 2).take 32 = exKeyB →
      handleQueryResponse f'
          (handleQueryResponse exQueryResponseFrame exWithPending).1 =
        ((handleQueryResponse exQueryResponseFrame exWithPending).1, [])) :=
  query_response_first_wins exQueryResponseFrame exWithPending
    ⟨⟨MsgType.DATA, exKeyB ++ [42], exKeyA, none⟩, 5, 0⟩ exKeyB
    (by decide) (by decide) (by decide)

/-! ## Claims C8, C9, C10: the NODE_INFO handler -/

theorem nodeInfo_query_client_reply (own selfAddr : List Nat) (c : Nat)
    (f : Frame) (s : NodeState)
    (hauth : ¬(clientByConn s c = none ∧ serverByConn s c = none))
    (hsub : f.payload.getD 0 0 = NI.QUERY_CLIENT)
    (hlen : 33 ≤ f.payload.length)
    (hopen : s.isOpen c = true)
    (hown : own.length = 32) :
    nodeInfoHandle own selfAddr c f s =
      (s, [Effect.sendEff c ⟨MsgType.NODE_INFO,
        (if (mget ((f.payload.drop 1).take 32) s.clients).isSome then
           NI.QUERY_RESPONSE :: 1 :: ((f.payload.drop 1).take 32 ++ own)
         else NI.QUERY_RESPONSE :: 0 :: (f.payload.drop 1).take 32),
        own, none⟩]) := by
  have htl : ((f.payload.drop 1).take 32).length = 32 := by
    simp [List.length_take, List.length_drop]
    omega
  unfold nodeInfoHandle
  rw [if_neg hauth, if_neg (by omega : ¬f.payload.length = 0)]
  rw [if_neg (by rw [hsub]; decide), if_neg (by rw [hsub]; decide),
      if_neg (by rw [hsub]; decide), if_pos (by rw [hsub]),
      if_neg (by omega : ¬f.payload.length < 33)]
  simp only [setW_of_length_eq htl, setW_of_length_eq hown]
  simp [connSend, hopen]

/-- C8 — A `QUERY_CLIENT` from an authenticated session is answered with
exactly one `QUERY_RESPONSE` on the same session: subtype 6, status 1,
the target key and the node's own key when the target is a local client,
and subtype 6, status 0 and the target key with no owner otherwise; no
frame goes to any other session (no transitive forwarding). -/
theorem query_client_one_hop_reply (cr : Crypto) (priv own selfAddr : List Nat)
    (now c : Nat) (f : Frame) (s : NodeState)
    (hauth : ¬(clientByConn s c = none ∧ serverByConn s c = none))
    (hty : f.type = MsgType.NODE_INFO)
    (hsub : f.payload.getD 0 0 = NI.QUERY_CLIENT)
    (hlen : 33 ≤ f.payload.length)
    (hopen : s.isOpen c = true)
    (hown : own.length = 32) :
    dispatch cr priv own selfAddr now c f s =
      (s, [Effect.sendEff c ⟨MsgType.NODE_INFO,
        (if (mget ((f.payload.drop 1).take 32) s.clients).isSome then
           NI.QUERY_RESPONSE :: 1 :: ((f.payload.drop 1).take 32 ++ own)
         else NI.QUERY_RESPONSE :: 0 :: (f.payload.drop 1).take 32),
        own, none⟩]) := by
  have h := nodeInfo_query_client_reply own selfAddr c f s hauth hsub hlen
    hopen hown
  simp [dispatch, hty, MsgType.HANDSHAKE, MsgType.DATA, MsgType.NODE_INFO,
    MsgType.SIGNED_DATA, h]

/-- C8 witness: a peer session's query for local client `exKeyB`. -/
theorem query_client_one_hop_reply_witness :
    dispatch exCryptoOk [] exOwnKey [] 0 2 exQueryClientFrame exWithPending =
      (exWithPending, [Effect.sendEff 2 ⟨MsgType.NODE_INFO,
        (if (mget ((exQueryClientFrame.payload.drop 1).take 32)
              exWithPending.clients).isSome then
           NI.QUERY_RESPONSE :: 1 ::
             ((exQueryClientFrame.payload.drop 1).take 32 ++ exOwnKey)
         else NI.QUERY_RESPONSE :: 0 ::
             (exQueryClientFrame.payload.drop 1).take 32),
        exOwnKey, none⟩]) :=
  query_client_one_hop_reply exCryptoOk [] exOwnKey [] 0 2
    exQueryClientFrame exWithPending (by decide) (by decide) (by decide)
    (by decide) (by decide) (by decide)

/-- C9 — A `NODE_INFO` frame from an authenticated session whose subtype
byte is none of 2, 3, 4, 5, 6 (which includes the empty payload, whose
read subtype defaults to 0) changes nothing: no session is closed, no
frame is sent, and the directories and pending-query table are
untouched. -/
theorem node_info_unknown_subtype_noop (cr : Crypto)
    (priv own selfAddr : List Nat) (now c : Nat) (f : Frame) (s : NodeState)
    (hauth : ¬(clientByConn s c = none ∧ serverByConn s c = none))
    (hty : f.type = MsgType.NODE_INFO)
    (hsub : f.payload.getD 0 0 ≠ NI.REQUEST_SERVERS ∧
      f.payload.getD 0 0 ≠ NI.RESPONSE_SERVERS ∧
      f.payload.getD 0 0 ≠ NI.ADD_SERVER ∧
      f.payload.getD 0 0 ≠ NI.QUERY_CLIENT ∧
      f.payload.getD 0 0 ≠ NI.QUERY_RESPONSE) :
    dispatch cr priv own selfAddr now c f s = (s, []) := by
  obtain ⟨h2, h3, h4, h5, h6⟩ := hsub
  have hn : nodeInfoHandle own selfAddr c f s = (s, []) := by
    unfold nodeInfoHandle
    rw [if_neg hauth]
    by_cases h0 : f.payload.length = 0
    · rw [if_pos h0]
    · rw [if_neg h0, if_neg h2, if_neg h3, if_neg h4, if_neg h5, if_neg h6]
  simp [dispatch, hty, MsgType.HANDSHAKE, MsgType.DATA, MsgType.NODE_INFO,
    MsgType.SIGNED_DATA, hn]

/-- C9 witness: subtype byte 9 from an authenticated client session. -/
theorem node_info_unknown_subtype_noop_witness :
    dispatch exCryptoOk [] exOwnKey [] 0 0 exUnknownNodeInfo exTwoClients =
      (exTwoClients, []) :=
  node_info_unknown_subtype_noop exCryptoOk [] exOwnKey [] 0 0
    exUnknownNodeInfo exTwoClients (by decide) (by decide)
    ⟨by decide, by decide, by decide, by decide, by decide⟩

/-- C10 — A `QUERY_CLIENT` is honored from an authenticated *client*
session as well: a local client querying a key present in the
local-client directory receives a status-1 `QUERY_RESPONSE` on its own
session. -/
theorem query_client_honored_from_client (cr : Crypto)
    (priv own selfAddr : List Nat) (now c : Nat) (f : Frame) (s : NodeState)
    (sc : ClientInfo) (tr : ClientInfo)
    (hsc : clientByConn s c = some sc)
    (hty : f.type = MsgType.NODE_INFO)
    (hsub : f.payload.getD 0 0 = NI.QUERY_CLIENT)
    (hlen : 33 ≤ f.payload.length)
    (hopen : s.isOpen c = true)
    (hown : own.length = 32)
    (hfound : mget ((f.payload.drop 1).take 32) s.clients = some tr) :
    dispatch cr priv own selfAddr now c f s =
      (s, [Effect.sendEff c ⟨MsgType.NODE_INFO,
        NI.QUERY_RESPONSE :: 1 :: ((f.payload.drop 1).take 32 ++ own),
        own, none⟩]) := by
  have hauth : ¬(clientByConn s c = none ∧ serverByConn s c = none) := by
    simp [hsc]
  have h := nodeInfo_query_client_reply own selfAddr c f s hauth hsub hlen
    hopen hown
  rw [hfound] at h
  simp only [Option.isSome_some, if_true] at h
  simp [dispatch, hty, MsgType.HANDSHAKE, MsgType.DATA, MsgType.NODE_INFO,
    MsgType.SIGNED_DATA, h]

/-- C10 witness: client session 0 queries for `exKeyB` and is answered
with status 1 on session 0. -/
theorem query_client_honored_from_client_witness :
    dispatch exCryptoOk [] exOwnKey [] 0 0 exQueryClientFrame exWithPending =
      (exWithPending, [Effect.sendEff 0 ⟨MsgType.NODE_INFO,
        NI.QUERY_RESPONSE :: 1 ::
          ((exQueryClientFrame.payload.drop 1).take 32 ++ exOwnKey),
        exOwnKey, none⟩]) :=
  query_client_honored_from_client exCryptoOk [] exOwnKey [] 0 0
    exQueryClientFrame exWithPending ⟨exKeyA, 0, 0⟩ ⟨exKeyB, 1, 0⟩
    (by decide) (by decide) (by decide) (by decide) (by decide) (by decide)
    (by decide)

/-! ## Claim C3: local-client directory consistency

First a toolbox of accessor lemmas about the connection attribute
updates, then preservation of `ClientInv` under every event, then the
claim theorems. -/

theorem updateConn_none {c : Nat} {g : ConnInfo → ConnInfo} {s : NodeState}
    (h : mget c s.conns = none) : updateConn c g s = s := by
  unfold updateConn
  rw [h]

@[simp] theorem clients_updateConn (c : Nat) (g : ConnInfo → ConnInfo)
    (s : NodeState) : (updateConn c g s).clients = s.clients := by
  unfold updateConn
  cases mget c s.conns <;> rfl

@[simp] theorem clientConn_updateConn (c : Nat) (g : ConnInfo → ConnInfo)
    (s : NodeState) : (updateConn c g s).clientConn = s.clientConn := by
  unfold updateConn
  cases mget c s.conns <;> rfl

@[simp] theorem servers_updateConn (c : Nat) (g : ConnInfo → ConnInfo)
    (s : NodeState) : (updateConn c g s).servers = s.servers := by
  unfold updateConn
  cases mget c s.conns <;> rfl

@[simp] theorem serverConn_updateConn (c : Nat) (g : ConnInfo → ConnInfo)
    (s : NodeState) : (updateConn c g s).serverConn = s.serverConn := by
  unfold updateConn
  cases mget c s.conns <;> rfl

@[simp] theorem pendingQueries_updateConn (c : Nat) (g : ConnInfo → ConnInfo)
    (s : NodeState) : (updateConn c g s).pendingQueries = s.pendingQueries := by
  unfold updateConn
  cases mget c s.conns <;> rfl

@[simp] theorem nextId_updateConn (c : Nat) (g : ConnInfo → ConnInfo)
    (s : NodeState) : (updateConn c g s).nextId = s.nextId := by
  unfold updateConn
  cases mget c s.conns <;> rfl

theorem connInfo_isSome_updateConn (c : Nat) (g : ConnInfo → ConnInfo)
    (s : NodeState) (x : Nat) :
    (mget x (updateConn c g s).conns).isSome = (mget x s.conns).isSome := by
  unfold updateConn
  cases h : mget c s.conns with
  | none => rfl
  | some i =>
    by_cases hx : x = c
    · subst hx
      simp [mget_mset_self, h]
    · simp [mget_mset_ne c x _ _ hx]

theorem pendingOf_updateConn_ne {c x : Nat} (g : ConnInfo → ConnInfo)
    (s : NodeState) (hx : x ≠ c) :
    (updateConn c g s).pendingOf x = s.pendingOf x := by
  unfold updateConn NodeState.pendingOf NodeState.connInfo
  cases mget c s.conns with
  | none => rfl
  | some i => simp [mget_mset_ne c x _ _ hx]

theorem pendingOf_updateConn_self {c : Nat} {i : ConnInfo}
    (g : ConnInfo → ConnInfo) (s : NodeState) (h : mget c s.conns = some i) :
    (updateConn c g s).pendingOf c = (g i).pending := by
  unfold updateConn NodeState.pendingOf NodeState.connInfo
  rw [h]
  simp [mget_mset_self]

theorem peerTypeOf_updateConn_ne {c x : Nat} (g : ConnInfo → ConnInfo)
    (s : NodeState) (hx : x ≠ c) :
    (updateConn c g s).peerTypeOf x = s.peerTypeOf x := by
  unfold updateConn NodeState.peerTypeOf NodeState.connInfo
  cases mget c s.conns with
  | none => rfl
  | some i => simp [mget_mset_ne c x _ _ hx]

theorem peerTypeOf_updateConn_self {c : Nat} {i : ConnInfo}
    (g : ConnInfo → ConnInfo) (s : NodeState) (h : mget c s.conns = some i) :
    (updateConn c g s).peerTypeOf c = (g i).peerType := by
  unfold updateConn NodeState.peerTypeOf NodeState.connInfo
  rw [h]
  simp [mget_mset_self]

theorem isOpen_updateConn_ne {c x : Nat} (g : ConnInfo → ConnInfo)
    (s : NodeState) (hx : x ≠ c) :
    (updateConn c g s).isOpen x = s.isOpen x := by
  unfold updateConn NodeState.isOpen NodeState.connInfo
  cases mget c s.conns with
  | none => rfl
  | some i => simp [mget_mset_ne c x _ _ hx]

theorem isOpen_markClosed_self (c : Nat) (s : NodeState) :
    (markClosed c s).isOpen c = false := by
  unfold markClosed updateConn NodeState.isOpen NodeState.connInfo
  cases h : mget c s.conns with
  | none => simp [h]
  | some i => simp [mget_mset_self, h]

theorem pendingOf_markClosed (c x : Nat) (s : NodeState) :
    (markClosed c s).pendingOf x = s.pendingOf x := by
  unfold markClosed
  by_cases hx : x = c
  · subst hx
    cases h : mget x s.conns with
    | none => rw [updateConn_none h]
    | some i =>
      rw [pendingOf_updateConn_self _ s h]
      unfold NodeState.pendingOf NodeState.connInfo
      rw [h]
  · exact pendingOf_updateConn_ne _ s hx

theorem peerTypeOf_markClosed (c x : Nat) (s : NodeState) :
    (markClosed c s).peerTypeOf x = s.peerTypeOf x := by
  unfold markClosed
  by_cases hx : x = c
  · subst hx
    cases h : mget x s.conns with
    | none => rw [updateConn_none h]
    | some i =>
      rw [peerTypeOf_updateConn_self _ s h]
      unfold NodeState.peerTypeOf NodeState.connInfo
      rw [h]
  · exact peerTypeOf_updateConn_ne _ s hx

theorem pendingOf_setPending_none (c x : Nat) (s : NodeState) :
    (setPending c none s).pendingOf x = if x = c then none else s.pendingOf x := by
  unfold setPending
  by_cases hx : x = c
  · subst hx
    cases h : mget x s.conns with
    | none =>
      rw [updateConn_none h]
      unfold NodeState.pendingOf NodeState.connInfo
      rw [h]
      simp
    | some i =>
      rw [pendingOf_updateConn_self _ s h]
      simp
  · rw [if_neg hx]
    exact pendingOf_updateConn_ne _ s hx

theorem peerTypeOf_setPending (c : Nat) (v : Option (List Nat)) (x : Nat)
    (s : NodeState) :
    (setPending c v s).peerTypeOf x = s.peerTypeOf x := by
  unfold setPending
  by_cases hx : x = c
  · subst hx
    cases h : mget x s.conns with
    | none => rw [updateConn_none h]
    | some i =>
      rw [peerTypeOf_updateConn_self _ s h]
      unfold NodeState.peerTypeOf NodeState.connInfo
      rw [h]
  · exact peerTypeOf_updateConn_ne _ s hx

theorem isOpen_setPending (c : Nat) (v : Option (List Nat)) (x : Nat)
    (s : NodeState) :
    (setPending c v s).isOpen x = s.isOpen x := by
  unfold setPending
  by_cases hx : x = c
  · subst hx
    cases h : mget x s.conns with
    | none => rw [updateConn_none h]
    | some i =>
      unfold updateConn NodeState.isOpen NodeState.connInfo
      rw [h]
      simp [mget_mset_self, h]
  · exact isOpen_updateConn_ne _ s hx

theorem pendingOf_setPeerType (c : Nat) (v : Option PT) (x : Nat)
    (s : NodeState) :
    (setPeerType c v s).pendingOf x = s.pendingOf x := by
  unfold setPeerType
  by_cases hx : x = c
  · subst hx
    cases h : mget x s.conns with
    | none => rw [updateConn_none h]
    | some i =>
      rw [pendingOf_updateConn_self _ s h]
      unfold NodeState.pendingOf NodeState.connInfo
      rw [h]
  · exact pendingOf_updateConn_ne _ s hx

theorem isOpen_setPeerType (c : Nat) (v : Option PT) (x : Nat)
    (s : NodeState) :
    (setPeerType c v s).isOpen x = s.isOpen x := by
  unfold setPeerType
  by_cases hx : x = c
  · subst hx
    cases h : mget x s.conns with
    | none => rw [updateConn_none h]
    | some i =>
      unfold updateConn NodeState.isOpen NodeState.connInfo
      rw [h]
      simp [mget_mset_self, h]
  · exact isOpen_updateConn_ne _ s hx

theorem peerTypeOf_setPeerType_ne {c x : Nat} (v : Option PT) (s : NodeState)
    (hx : x ≠ c) :
    (setPeerType c v s).peerTypeOf x = s.peerTypeOf x := by
  unfold setPeerType
  exact peerTypeOf_updateConn_ne _ s hx

theorem peerTypeOf_setPeerType_self (c : Nat) (v : Option PT) (s : NodeState) :
    (setPeerType c v s).peerTypeOf c =
      if (mget c s.conns).isSome then v else none := by
  unfold setPeerType
  cases h : mget c s.conns with
  | none =>
    rw [updateConn_none h]
    unfold NodeState.peerTypeOf NodeState.connInfo
    rw [h]
    simp
  | some i =>
    rw [peerTypeOf_updateConn_self _ s h]
    simp

theorem peerTypeOf_isSome_connInfo {s : NodeState} {x : Nat} {pt : PT}
    (h : s.peerTypeOf x = some pt) : (mget x s.conns).isSome = true := by
  unfold NodeState.peerTypeOf NodeState.connInfo at h
  cases hh : mget x s.conns with
  | none => rw [hh] at h; simp at h
  | some i => simp

theorem pendingOf_isSome_connInfo {s : NodeState} {x : Nat} {e : List Nat}
    (h : s.pendingOf x = some e) : (mget x s.conns).isSome = true := by
  unfold NodeState.pendingOf NodeState.connInfo at h
  cases hh : mget x s.conns with
  | none => rw [hh] at h; simp at h
  | some i => simp

theorem mget_mset_isSome_cases {K V : Type} [DecidableEq K] {k x : K} {v : V}
    {m : List (K × V)} (h : (mget x (mset k v m)).isSome = true) :
    x = k ∨ (mget x m).isSome = true := by
  by_cases hx : x = k
  · exact Or.inl hx
  · rw [mget_mset_ne k x v m hx] at h
    exact Or.inr h

theorem clientInv_of_eq {s s' : NodeState}
    (hc : s'.clients = s.clients) (hcc : s'.clientConn = s.clientConn)
    (hn : s'.conns = s.conns) (hi : s'.nextId = s.nextId)
    (h : ClientInv s) : ClientInv s' := by
  obtain ⟨h1, h2, h3, h4, h5, h6, h7⟩ := h
  have hp : ∀ x, s'.pendingOf x = s.pendingOf x := by
    intro x
    unfold NodeState.pendingOf NodeState.connInfo
    rw [hn]
  have hpt : ∀ x, s'.peerTypeOf x = s.peerTypeOf x := by
    intro x
    unfold NodeState.peerTypeOf NodeState.connInfo
    rw [hn]
  have ho : ∀ x, s'.isOpen x = s.isOpen x := by
    intro x
    unfold NodeState.isOpen NodeState.connInfo
    rw [hn]
  refine ⟨by rw [hc]; exact h1, ?_, ?_, ?_, ?_, ?_, ?_⟩
  · intro k r hk
    rw [hc] at hk
    exact h2 k r hk
  · intro k r hk
    rw [hc] at hk
    rw [hcc]
    exact h3 k r hk
  · intro c k hk
    rw [hcc] at hk
    rw [hc]
    exact h4 c k hk
  · intro k r hk
    rw [hc] at hk
    rw [hp, hpt]
    exact h5 k r hk
  · intro c hoc hptc
    rw [ho] at hoc
    rw [hpt] at hptc
    rw [hcc]
    exact h6 c hoc hptc
  · intro c hcn
    rw [hn] at hcn
    rw [hi]
    exact h7 c hcn

theorem clientInv_markClosed (c : Nat) {s : NodeState} (h : ClientInv s) :
    ClientInv (markClosed c s) := by
  obtain ⟨h1, h2, h3, h4, h5, h6, h7⟩ := h
  refine ⟨by simpa [markClosed], ?_, ?_, ?_, ?_, ?_, ?_⟩
  · intro k r hk
    simp only [markClosed, clients_updateConn] at hk
    exact h2 k r hk
  · intro k r hk
    simp only [markClosed, clients_updateConn] at hk
    simp only [markClosed, clientConn_updateConn]
    exact h3 k r hk
  · intro c' k hk
    simp only [markClosed, clientConn_updateConn] at hk
    simp only [markClosed, clients_updateConn]
    exact h4 c' k hk
  · intro k r hk
    simp only [markClosed, clients_updateConn] at hk
    rw [pendingOf_markClosed, peerTypeOf_markClosed]
    exact h5 k r hk
  · intro c' hoc hptc
    rw [peerTypeOf_markClosed] at hptc
    by_cases hx : c' = c
    · subst hx
      rw [isOpen_markClosed_self] at hoc
      cases hoc
    · rw [markClosed, isOpen_updateConn_ne _ s hx] at hoc
      simp only [markClosed, clientConn_updateConn]
      exact h6 c' hoc hptc
  · intro c' hcn
    rw [markClosed, connInfo_isSome_updateConn] at hcn
    simp only [markClosed, nextId_updateConn]
    exact h7 c' hcn

theorem clientInv_setPending_none (c : Nat) {s : NodeState} (h : ClientInv s) :
    ClientInv (setPending c none s) := by
  obtain ⟨h1, h2, h3, h4, h5, h6, h7⟩ := h
  refine ⟨by simpa [setPending], ?_, ?_, ?_, ?_, ?_, ?_⟩
  · intro k r hk
    simp only [setPending, clients_updateConn] at hk
    exact h2 k r hk
  · intro k r hk
    simp only [setPending, clients_updateConn] at hk
    simp only [setPending, clientConn_updateConn]
    exact h3 k r hk
  · intro c' k hk
    simp only [setPending, clientConn_updateConn] at hk
    simp only [setPending, clients_updateConn]
    exact h4 c' k hk
  · intro k r hk
    simp only [setPending, clients_updateConn] at hk
    rw [pendingOf_setPending_none, peerTypeOf_setPending]
    refine ⟨?_, (h5 k r hk).2⟩
    by_cases hx : r.conn = c
    · rw [if_pos hx]
    · rw [if_neg hx]
      exact (h5 k r hk).1
  · intro c' hoc hptc
    rw [isOpen_setPending] at hoc
    rw [peerTypeOf_setPending] at hptc
    simp only [setPending, clientConn_updateConn]
    exact h6 c' hoc hptc
  · intro c' hcn
    rw [setPending, connInfo_isSome_updateConn] at hcn
    simp only [setPending, nextId_updateConn]
    exact h7 c' hcn

theorem clientInv_initState : ClientInv initState := by
  refine ⟨by simp [initState], ?_, ?_, ?_, ?_, ?_, ?_⟩
  · intro k r hk
    simp [initState, mget] at hk
  · intro k r hk
    simp [initState, mget] at hk
  · intro c k hk
    simp [initState, mget] at hk
  · intro k r hk
    simp [initState, mget] at hk
  · intro c ho hp
    simp [initState, NodeState.isOpen, NodeState.connInfo, mget] at ho
  · intro c h
    simp [initState, mget] at h

theorem clientInv_acceptConn (ch : List Nat) {s : NodeState}
    (h : ClientInv s) : ClientInv (acceptConn ch s) := by
  obtain ⟨h1, h2, h3, h4, h5, h6, h7⟩ := h
  have hrc : ∀ k r, mget k s.clients = some r → r.conn ≠ s.nextId := by
    intro k r hk heq
    have hpt := (h5 k r hk).2
    have hcs := peerTypeOf_isSome_connInfo hpt
    have := h7 r.conn hcs
    omega
  have hacc : ∀ x, x ≠ s.nextId →
      mget x (acceptConn ch s).conns = mget x s.conns := by
    intro x hx
    unfold acceptConn
    simp only []
    exact mget_mset_ne _ _ _ _ hx
  have hpend : ∀ x, x ≠ s.nextId →
      (acceptConn ch s).pendingOf x = s.pendingOf x := by
    intro x hx
    unfold NodeState.pendingOf NodeState.connInfo
    rw [hacc x hx]
  have hpt : ∀ x, x ≠ s.nextId →
      (acceptConn ch s).peerTypeOf x = s.peerTypeOf x := by
    intro x hx
    unfold NodeState.peerTypeOf NodeState.connInfo
    rw [hacc x hx]
  have hio : ∀ x, x ≠ s.nextId →
      (acceptConn ch s).isOpen x = s.isOpen x := by
    intro x hx
    unfold NodeState.isOpen NodeState.connInfo
    rw [hacc x hx]
  refine ⟨h1, h2, ?_, h4, ?_, ?_, ?_⟩
  · intro k r hk
    exact h3 k r hk
  · intro k r hk
    rw [hpend r.conn (hrc k r hk), hpt r.conn (hrc k r hk)]
    exact h5 k r hk
  · intro c' hoc hptc
    by_cases hx : c' = s.nextId
    · subst hx
      unfold acceptConn NodeState.peerTypeOf NodeState.connInfo at hptc
      simp only [mget_mset_self] at hptc
      cases hptc
    · rw [hio c' hx] at hoc
      rw [hpt c' hx] at hptc
      exact h6 c' hoc hptc
  · intro c' hcn
    unfold acceptConn at hcn
    simp only [] at hcn
    rcases mget_mset_isSome_cases hcn with hx | hx
    · subst hx
      simp [acceptConn]
    · have := h7 c' hx
      simp [acceptConn]
      omega

theorem pendingOf_set_dirs (s : NodeState) (cl : List (List Nat × ClientInfo))
    (cc : List (Nat × List Nat)) (x : Nat) :
    ({ s with clients := cl, clientConn := cc } : NodeState).pendingOf x =
      s.pendingOf x := rfl

theorem peerTypeOf_set_dirs (s : NodeState) (cl : List (List Nat × ClientInfo))
    (cc : List (Nat × List Nat)) (x : Nat) :
    ({ s with clients := cl, clientConn := cc } : NodeState).peerTypeOf x =
      s.peerTypeOf x := rfl

theorem isOpen_set_dirs (s : NodeState) (cl : List (List Nat × ClientInfo))
    (cc : List (Nat × List Nat)) (x : Nat) :
    ({ s with clients := cl, clientConn := cc } : NodeState).isOpen x =
      s.isOpen x := rfl

theorem conns_set_dirs (s : NodeState) (cl : List (List Nat × ClientInfo))
    (cc : List (Nat × List Nat)) :
    ({ s with clients := cl, clientConn := cc } : NodeState).conns = s.conns := rfl

theorem nextId_set_dirs (s : NodeState) (cl : List (List Nat × ClientInfo))
    (cc : List (Nat × List Nat)) :
    ({ s with clients := cl, clientConn := cc } : NodeState).nextId = s.nextId := rfl

theorem clientInv_installClient (pk : List Nat) (c now : Nat) {s1 : NodeState}
    (h : ClientInv s1)
    (hnr : ∀ k r, mget k s1.clients = some r → r.conn ≠ c)
    (hcs : (mget c s1.conns).isSome = true)
    (hpn : s1.pendingOf c = none) :
    ClientInv (installClient pk c now s1).1 := by
  obtain ⟨h1, h2, h3, h4, h5, h6, h7⟩ := h
  have hinj : ∀ k1 r1 k2 r2, mget k1 s1.clients = some r1 →
      mget k2 s1.clients = some r2 → r1.conn = r2.conn → k1 = k2 := by
    intro k1 r1 k2 r2 hk1 hk2 hcc
    have e1 := h3 k1 r1 hk1
    have e2 := h3 k2 r2 hk2
    rw [hcc] at e1
    exact Option.some_inj.mp (e1.symm.trans e2)
  cases hec : mget pk s1.clients with
  | none =>
    have hred : (installClient pk c now s1).1 = setPeerType c (some PT.client)
        { s1 with clients := mset pk ⟨pk, c, now⟩ s1.clients,
                  clientConn := mset c pk s1.clientConn } := by
      unfold installClient
      rw [hec]
    rw [hred]
    have hSpend : ∀ x, (setPeerType c (some PT.client)
        { s1 with clients := mset pk ⟨pk, c, now⟩ s1.clients,
                  clientConn := mset c pk s1.clientConn }).pendingOf x =
        s1.pendingOf x := by
      intro x
      rw [pendingOf_setPeerType, pendingOf_set_dirs]
    have hSpt : ∀ x, x ≠ c → (setPeerType c (some PT.client)
        { s1 with clients := mset pk ⟨pk, c, now⟩ s1.clients,
                  clientConn := mset c pk s1.clientConn }).peerTypeOf x =
        s1.peerTypeOf x := by
      intro x hx
      rw [peerTypeOf_setPeerType_ne _ _ hx, peerTypeOf_set_dirs]
    have hSptc : (setPeerType c (some PT.client)
        { s1 with clients := mset pk ⟨pk, c, now⟩ s1.clients,
                  clientConn := mset c pk s1.clientConn }).peerTypeOf c =
        some PT.client := by
      rw [peerTypeOf_setPeerType_self, conns_set_dirs]
      simp only [hcs, if_true]
    have hSopen : ∀ x, (setPeerType c (some PT.client)
        { s1 with clients := mset pk ⟨pk, c, now⟩ s1.clients,
                  clientConn := mset c pk s1.clientConn }).isOpen x =
        s1.isOpen x := by
      intro x
      rw [isOpen_setPeerType, isOpen_set_dirs]
    refine ⟨?_, ?_, ?_, ?_, ?_, ?_, ?_⟩
    · simp only [setPeerType, clients_updateConn]
      exact nodup_keys_mset h1
    · intro k r hk
      simp only [setPeerType, clients_updateConn] at hk
      by_cases hkpk : k = pk
      · subst hkpk
        rw [mget_mset_self] at hk
        cases hk
        rfl
      · rw [mget_mset_ne _ _ _ _ hkpk] at hk
        exact h2 k r hk
    · intro k r hk
      simp only [setPeerType, clients_updateConn] at hk
      simp only [setPeerType, clientConn_updateConn]
      by_cases hkpk : k = pk
      · subst hkpk
        rw [mget_mset_self] at hk
        cases hk
        exact mget_mset_self _ _ _
      · rw [mget_mset_ne _ _ _ _ hkpk] at hk
        rw [mget_mset_ne _ _ _ _ (hnr k r hk)]
        exact h3 k r hk
    · intro c' k hk
      simp only [setPeerType, clientConn_updateConn] at hk
      simp only [setPeerType, clients_updateConn]
      by_cases hcc : c' = c
      · subst hcc
        rw [mget_mset_self] at hk
        cases hk
        exact ⟨⟨pk, c', now⟩, mget_mset_self _ _ _, rfl⟩
      · rw [mget_mset_ne _ _ _ _ hcc] at hk
        obtain ⟨r, hr, hrc⟩ := h4 c' k hk
        have hkpk : k ≠ pk := by
          intro hkk
          subst hkk
          rw [hec] at hr
          cases hr
        exact ⟨r, by rw [mget_mset_ne _ _ _ _ hkpk]; exact hr, hrc⟩
    · intro k r hk
      simp only [setPeerType, clients_updateConn] at hk
      by_cases hkpk : k = pk
      · subst hkpk
        rw [mget_mset_self] at hk
        cases hk
        exact ⟨by rw [hSpend]; exact hpn, hSptc⟩
      · rw [mget_mset_ne _ _ _ _ hkpk] at hk
        constructor
        · rw [hSpend]
          exact (h5 k r hk).1
        · rw [hSpt r.conn (hnr k r hk)]
          exact (h5 k r hk).2
    · intro c' hoc hptc
      simp only [setPeerType, clientConn_updateConn]
      by_cases hcc : c' = c
      · subst hcc
        exact ⟨pk, mget_mset_self _ _ _⟩
      · rw [hSopen] at hoc
        rw [hSpt c' hcc] at hptc
        obtain ⟨k, hkk⟩ := h6 c' hoc hptc
        exact ⟨k, by rw [mget_mset_ne _ _ _ _ hcc]; exact hkk⟩
    · intro c' hcn
      simp only [setPeerType] at hcn
      rw [connInfo_isSome_updateConn, conns_set_dirs] at hcn
      simp only [setPeerType, nextId_updateConn, nextId_set_dirs]
      exact h7 c' hcn
  | some ec =>
    have hecc : ec.conn ≠ c := hnr pk ec hec
    have hred : (installClient pk c now s1).1 = setPeerType c (some PT.client)
        { markClosed ec.conn s1 with
            clients := mset pk ⟨pk, c, now⟩ (mdel pk (markClosed ec.conn s1).clients),
            clientConn := mset c pk (mdel ec.conn (markClosed ec.conn s1).clientConn) } := by
      unfold installClient
      rw [hec]
    have hclA : (markClosed ec.conn s1).clients = s1.clients := by
      simp [markClosed]
    have hccA : (markClosed ec.conn s1).clientConn = s1.clientConn := by
      simp [markClosed]
    rw [hclA, hccA] at hred
    rw [hred]
    set S := setPeerType c (some PT.client)
        { markClosed ec.conn s1 with
            clients := mset pk ⟨pk, c, now⟩ (mdel pk s1.clients),
            clientConn := mset c pk (mdel ec.conn s1.clientConn) } with hS
    have hScl : S.clients = mset pk ⟨pk, c, now⟩ (mdel pk s1.clients) := by
      rw [hS]
      simp [setPeerType]
    have hScc : S.clientConn = mset c pk (mdel ec.conn s1.clientConn) := by
      rw [hS]
      simp [setPeerType]
    have hSpend : ∀ x, S.pendingOf x = s1.pendingOf x := by
      intro x
      rw [hS, pendingOf_setPeerType, pendingOf_set_dirs]
      exact pendingOf_markClosed _ _ _
    have hSpt : ∀ x, x ≠ c → S.peerTypeOf x = s1.peerTypeOf x := by
      intro x hx
      rw [hS, peerTypeOf_setPeerType_ne _ _ hx, peerTypeOf_set_dirs]
      exact peerTypeOf_markClosed _ _ _
    have hSptc : S.peerTypeOf c = some PT.client := by
      rw [hS, peerTypeOf_setPeerType_self, conns_set_dirs]
      have hms : (mget c (markClosed ec.conn s1).conns).isSome = true := by
        rw [markClosed, connInfo_isSome_updateConn]
        exact hcs
      simp only [hms, if_true]
    have hSopen : ∀ x, x ≠ ec.conn → S.isOpen x = s1.isOpen x := by
      intro x hx
      rw [hS, isOpen_setPeerType, isOpen_set_dirs]
      rw [markClosed, isOpen_updateConn_ne _ _ hx]
    have hSclosed : S.isOpen ec.conn = false := by
      rw [hS, isOpen_setPeerType, isOpen_set_dirs]
      exact isOpen_markClosed_self _ _
    refine ⟨?_, ?_, ?_, ?_, ?_, ?_, ?_⟩
    · rw [hScl]
      exact nodup_keys_mset (nodup_keys_mdel h1)
    · intro k r hk
      rw [hScl] at hk
      by_cases hkpk : k = pk
      · subst hkpk
        rw [mget_mset_self] at hk
        cases hk
        rfl
      · rw [mget_mset_ne _ _ _ _ hkpk, mget_mdel_ne _ _ _ hkpk] at hk
        exact h2 k r hk
    · intro k r hk
      rw [hScl] at hk
      rw [hScc]
      by_cases hkpk : k = pk
      · subst hkpk
        rw [mget_mset_self] at hk
        cases hk
        exact mget_mset_self _ _ _
      · rw [mget_mset_ne _ _ _ _ hkpk, mget_mdel_ne _ _ _ hkpk] at hk
        have hrcc : r.conn ≠ c := hnr k r hk
        have hrec : r.conn ≠ ec.conn := by
          intro heq
          exact hkpk (hinj k r pk ec hk hec heq)
        rw [mget_mset_ne _ _ _ _ hrcc, mget_mdel_ne _ _ _ hrec]
        exact h3 k r hk
    · intro c' k hk
      rw [hScc] at hk
      rw [hScl]
      by_cases hcc : c' = c
      · subst hcc
        rw [mget_mset_self] at hk
        cases hk
        exact ⟨⟨pk, c', now⟩, mget_mset_self _ _ _, rfl⟩
      · rw [mget_mset_ne _ _ _ _ hcc] at hk
        by_cases hce : c' = ec.conn
        · subst hce
          rw [mget_mdel_self] at hk
          cases hk
        · rw [mget_mdel_ne _ _ _ hce] at hk
          obtain ⟨r, hr, hrc⟩ := h4 c' k hk
          have hkpk : k ≠ pk := by
            intro hkk
            subst hkk
            rw [hec] at hr
            cases hr
            exact hce hrc.symm
          exact ⟨r, by
            rw [mget_mset_ne _ _ _ _ hkpk, mget_mdel_ne _ _ _ hkpk]
            exact hr, hrc⟩
    · intro k r hk
      rw [hScl] at hk
      by_cases hkpk : k = pk
      · subst hkpk
        rw [mget_mset_self] at hk
        cases hk
        exact ⟨by rw [hSpend]; exact hpn, hSptc⟩
      · rw [mget_mset_ne _ _ _ _ hkpk, mget_mdel_ne _ _ _ hkpk] at hk
        constructor
        · rw [hSpend]
          exact (h5 k r hk).1
        · rw [hSpt r.conn (hnr k r hk)]
          exact (h5 k r hk).2
    · intro c' hoc hptc
      rw [hScc]
      by_cases hcc : c' = c
      · subst hcc
        exact ⟨pk, mget_mset_self _ _ _⟩
      · by_cases hce : c' = ec.conn
        · subst hce
          rw [hSclosed] at hoc
          cases hoc
        · rw [hSopen c' hce] at hoc
          rw [hSpt c' hcc] at hptc
          obtain ⟨k, hkk⟩ := h6 c' hoc hptc
          refine ⟨k, ?_⟩
          rw [mget_mset_ne _ _ _ _ hcc, mget_mdel_ne _ _ _ hce]
          exact hkk
    · intro c' hcn
      rw [hS] at hcn
      simp only [setPeerType] at hcn
      rw [connInfo_isSome_updateConn, conns_set_dirs] at hcn
      rw [markClosed, connInfo_isSome_updateConn] at hcn
      have hlt := h7 c' hcn
      rw [hS]
      simp only [setPeerType, nextId_updateConn, nextId_set_dirs]
      rw [markClosed, nextId_updateConn]
      exact hlt

theorem clientInv_set_srv (sv : List (List Nat × PeerInfo))
    (sc : List (Nat × List Nat)) {s : NodeState} (h : ClientInv s) :
    ClientInv { s with servers := sv, serverConn := sc } :=
  clientInv_of_eq rfl rfl rfl rfl h

theorem clientInv_closePrev (s1 : NodeState) (h : ClientInv s1)
    (x : Option PeerInfo) :
    ClientInv ((match x with
      | some es =>
        match es.conn with
        | some c0 => (markClosed c0 s1, [Effect.closeEff c0])
        | none => (s1, ([] : List Effect))
      | none => (s1, ([] : List Effect))).1) := by
  cases x with
  | none => exact h
  | some es =>
    cases hc : es.conn with
    | none =>
      simp only [hc]
      exact h
    | some c0 =>
      simp only [hc]
      exact clientInv_markClosed c0 h

theorem clientInv_setPeerType_server (c : Nat) {s : NodeState} (h : ClientInv s)
    (hnr : ∀ k r, mget k s.clients = some r → r.conn ≠ c) :
    ClientInv (setPeerType c (some PT.server) s) := by
  obtain ⟨h1, h2, h3, h4, h5, h6, h7⟩ := h
  refine ⟨by simpa [setPeerType], ?_, ?_, ?_, ?_, ?_, ?_⟩
  · intro k r hk
    simp only [setPeerType, clients_updateConn] at hk
    exact h2 k r hk
  · intro k r hk
    simp only [setPeerType, clients_updateConn] at hk
    simp only [setPeerType, clientConn_updateConn]
    exact h3 k r hk
  · intro c' k hk
    simp only [setPeerType, clientConn_updateConn] at hk
    simp only [setPeerType, clients_updateConn]
    exact h4 c' k hk
  · intro k r hk
    simp only [setPeerType, clients_updateConn] at hk
    constructor
    · rw [pendingOf_setPeerType]
      exact (h5 k r hk).1
    · rw [peerTypeOf_setPeerType_ne _ _ (hnr k r hk)]
      exact (h5 k r hk).2
  · intro c' hoc hptc
    simp only [setPeerType, clientConn_updateConn]
    by_cases hcc : c' = c
    · subst hcc
      rw [peerTypeOf_setPeerType_self] at hptc
      by_cases hcs : (mget c' s.conns).isSome = true
      · simp only [hcs, if_true] at hptc
        cases hptc
      · simp only [hcs] at hptc
        simp at hptc
    · rw [isOpen_setPeerType] at hoc
      rw [peerTypeOf_setPeerType_ne _ _ hcc] at hptc
      exact h6 c' hoc hptc
  · intro c' hcn
    simp only [setPeerType] at hcn
    rw [connInfo_isSome_updateConn] at hcn
    simp only [setPeerType, nextId_updateConn]
    exact h7 c' hcn

theorem clientInv_attachServerOutgoing (pk : List Nat) (c : Nat)
    {s1 : NodeState} (h : ClientInv s1) :
    ClientInv (attachServerOutgoing pk c s1).1 := by
  have hco := clientInv_closePrev s1 h (mget pk s1.servers)
  exact clientInv_of_eq rfl rfl rfl rfl hco

theorem clientInv_attachServerIncoming (pk : List Nat) (c : Nat)
    (es : PeerInfo) {s1 : NodeState} (h : ClientInv s1)
    (hnr : ∀ k r, mget k s1.clients = some r → r.conn ≠ c) :
    ClientInv (attachServerIncoming pk c es s1).1 := by
  unfold attachServerIncoming
  cases hcn : es.conn with
  | none =>
    simp only [hcn]
    apply clientInv_setPeerType_server c (clientInv_set_srv _ _ h)
    intro k r hk
    exact hnr k r hk
  | some c0 =>
    simp only [hcn]
    apply clientInv_setPeerType_server c
      (clientInv_set_srv _ _ (clientInv_markClosed c0 h))
    intro k r hk
    have hk' : mget k s1.clients = some r := by
      simpa [markClosed] using hk
    exact hnr k r hk'

theorem clientInv_dialConn (ch : List Nat) {s : NodeState}
    (h : ClientInv s) : ClientInv (dialConn ch s) := by
  obtain ⟨h1, h2, h3, h4, h5, h6, h7⟩ := h
  have hrc : ∀ k r, mget k s.clients = some r → r.conn ≠ s.nextId := by
    intro k r hk heq
    have hpt := (h5 k r hk).2
    have hcs := peerTypeOf_isSome_connInfo hpt
    have := h7 r.conn hcs
    omega
  have hacc : ∀ x, x ≠ s.nextId →
      mget x (dialConn ch s).conns = mget x s.conns := by
    intro x hx
    unfold dialConn
    simp only []
    exact mget_mset_ne _ _ _ _ hx
  have hpend : ∀ x, x ≠ s.nextId →
      (dialConn ch s).pendingOf x = s.pendingOf x := by
    intro x hx
    unfold NodeState.pendingOf NodeState.connInfo
    rw [hacc x hx]
  have hpt : ∀ x, x ≠ s.nextId →
      (dialConn ch s).peerTypeOf x = s.peerTypeOf x := by
    intro x hx
    unfold NodeState.peerTypeOf NodeState.connInfo
    rw [hacc x hx]
  have hio : ∀ x, x ≠ s.nextId →
      (dialConn ch s).isOpen x = s.isOpen x := by
    intro x hx
    unfold NodeState.isOpen NodeState.connInfo
    rw [hacc x hx]
  refine ⟨h1, h2, ?_, h4, ?_, ?_, ?_⟩
  · intro k r hk
    exact h3 k r hk
  · intro k r hk
    rw [hpend r.conn (hrc k r hk), hpt r.conn (hrc k r hk)]
    exact h5 k r hk
  · intro c' hoc hptc
    by_cases hx : c' = s.nextId
    · subst hx
      unfold dialConn NodeState.peerTypeOf NodeState.connInfo at hptc
      simp only [mget_mset_self] at hptc
      cases hptc
    · rw [hio c' hx] at hoc
      rw [hpt c' hx] at hptc
      exact h6 c' hoc hptc
  · intro c' hcn
    unfold dialConn at hcn
    simp only [] at hcn
    rcases mget_mset_isSome_cases hcn with hx | hx
    · subst hx
      simp [dialConn]
    · have := h7 c' hx
      simp [dialConn]
      omega

theorem clientInv_handleAuthentication (cr : Crypto) (own : List Nat)
    (now c : Nat) (f : Frame) {s : NodeState} (h : ClientInv s) :
    ClientInv (handleAuthentication cr own now c f s).1 := by
  unfold handleAuthentication
  by_cases hv : cr.verify f.senderId f.payload (f.signature.getD []) = false
  · rw [if_pos hv]
    exact clientInv_markClosed c h
  · rw [if_neg hv]
    by_cases hpt : s.peerTypeOf c = some PT.server
    · rw [if_pos hpt]
      cases hpd : s.pendingOf c with
      | none =>
        simp only [hpd]
        exact clientInv_markClosed c h
      | some exp =>
        simp only [hpd]
        by_cases hpl : f.payload ≠ exp
        · rw [if_pos hpl]
          exact clientInv_markClosed c h
        · rw [if_neg hpl]
          show ClientInv (attachServerOutgoing f.senderId c (setPending c none s)).1
          exact clientInv_attachServerOutgoing _ _ (clientInv_setPending_none c h)
    · rw [if_neg hpt]
      cases hpd : s.pendingOf c with
      | none =>
        simp only [hpd]
        exact clientInv_markClosed c h
      | some exp =>
        simp only [hpd]
        by_cases hpl : f.payload ≠ exp
        · rw [if_pos hpl]
          exact clientInv_markClosed c h
        · rw [if_neg hpl]
          have h5s := h.2.2.2.2.1
          have h1 := clientInv_setPending_none c h
          have hnr1 : ∀ k r, mget k (setPending c none s).clients = some r →
              r.conn ≠ c := by
            intro k r hk heq
            have hk' : mget k s.clients = some r := by
              simpa [setPending] using hk
            have hn := (h5s k r hk').1
            rw [heq, hpd] at hn
            cases hn
          have hcs1 : (mget c (setPending c none s).conns).isSome = true := by
            rw [setPending, connInfo_isSome_updateConn]
            exact pendingOf_isSome_connInfo hpd
          have hpn1 : (setPending c none s).pendingOf c = none := by
            rw [pendingOf_setPending_none]
            simp
          cases hsv : mget f.senderId (setPending c none s).servers with
          | some es =>
            simp only [hsv]
            show ClientInv (attachServerIncoming f.senderId c es
              (setPending c none s)).1
            exact clientInv_attachServerIncoming _ _ _ h1 hnr1
          | none =>
            simp only [hsv]
            show ClientInv (installClient f.senderId c now (setPending c none s)).1
            exact clientInv_installClient _ _ _ h1 hnr1 hcs1 hpn1

theorem clientInv_handshakeHandle (cr : Crypto) (priv own : List Nat)
    (now c : Nat) (f : Frame) {s : NodeState} (h : ClientInv s) :
    ClientInv (handshakeHandle cr priv own now c f s).1 := by
  unfold handshakeHandle
  by_cases h1 : f.payload.length = 32 ∧ f.signature = none
  · rw [if_pos h1]
    exact h
  · rw [if_neg h1]
    by_cases h2c : f.payload.length = 32 ∧ f.signature ≠ none
    · rw [if_pos h2c]
      exact clientInv_handleAuthentication cr own now c f h
    · rw [if_neg h2c]
      by_cases h3c : f.payload.length = 1 ∧ f.payload.getD 0 0 = 1
      · rw [if_pos h3c]
        exact h
      · rw [if_neg h3c]
        exact clientInv_markClosed c h

theorem clientInv_forwardToRemoteClient (own targetKey : List Nat) (f : Frame)
    (senderConn : Nat) {s : NodeState} (h : ClientInv s) :
    ClientInv (forwardToRemoteClient own targetKey f senderConn s).1 := by
  unfold forwardToRemoteClient
  by_cases hd : (mget targetKey s.pendingQueries).isSome = true
  · rw [if_pos hd]
    exact h
  · rw [if_neg hd]
    exact clientInv_of_eq rfl rfl rfl rfl h

theorem handleQueryResponse_state (f : Frame) (s : NodeState) :
    (handleQueryResponse f s).1 = s ∨
    (handleQueryResponse f s).1 =
      { s with pendingQueries := mdel ((f.payload.drop 2).take 32) s.pendingQueries } := by
  unfold handleQueryResponse
  by_cases hl : f.payload.length < 34
  · rw [if_pos hl]
    left
    trivial
  · rw [if_neg hl]
    cases hp : mget ((f.payload.drop 2).take 32) s.pendingQueries with
    | none =>
      simp only [hp]
      left
      trivial
    | some e =>
      simp only [hp]
      by_cases hst : f.payload.getD 1 0 = 1 ∧ 66 ≤ f.payload.length
      · rw [if_pos hst]
        cases hms : mget ((f.payload.drop 34).take 32) s.servers with
        | none =>
          right
          trivial
        | some ts =>
          cases hcn : ts.conn with
          | none =>
            simp only [hcn]
            right
            trivial
          | some pc =>
            simp only [hcn]
            right
            trivial
      · rw [if_neg hst]
        right
        trivial

theorem clientInv_handleQueryResponse (f : Frame) {s : NodeState}
    (h : ClientInv s) : ClientInv (handleQueryResponse f s).1 := by
  rcases handleQueryResponse_state f s with h' | h' <;> rw [h']
  · exact h
  · exact clientInv_of_eq rfl rfl rfl rfl h

theorem clientInv_dataHandle (own : List Nat) (c : Nat) (f : Frame)
    {s : NodeState} (h : ClientInv s) :
    ClientInv (dataHandle own c f s).1 := by
  unfold dataHandle
  by_cases h1 : clientByConn s c = none ∧ serverByConn s c = none
  · rw [if_pos h1]
    exact clientInv_markClosed c h
  · rw [if_neg h1]
    by_cases h2c : f.payload.length < 32
    · rw [if_pos h2c]
      exact h
    · rw [if_neg h2c]
      cases ht : mget (f.payload.take 32) s.clients with
      | some tc =>
        simp only [ht]
        exact h
      | none =>
        simp only [ht]
        exact clientInv_forwardToRemoteClient own _ f c h

theorem clientInv_respServersLoop (own payload : List Nat) (i : Nat) :
    ∀ (offset : Nat) (s : NodeState), ClientInv s →
      ClientInv (respServersLoop own payload i offset s).1 := by
  induction i with
  | zero =>
    intro o s h
    exact h
  | succ i ih =>
    intro o s h
    unfold respServersLoop
    split
    · exact h
    · split
      · exact h
      · split
        · exact h
        · refine ih (o + 33 + payload.getD (o + 32) 0) _ ?_
          split
          · exact clientInv_of_eq rfl rfl rfl rfl h
          · exact h

theorem clientInv_nodeInfoHandle (own selfAddr : List Nat) (c : Nat)
    (f : Frame) {s : NodeState} (h : ClientInv s) :
    ClientInv (nodeInfoHandle own selfAddr c f s).1 := by
  unfold nodeInfoHandle
  by_cases h1 : clientByConn s c = none ∧ serverByConn s c = none
  · rw [if_pos h1]
    exact clientInv_markClosed c h
  · rw [if_neg h1]
    by_cases h0 : f.payload.length = 0
    · rw [if_pos h0]
      exact h
    · rw [if_neg h0]
      split
      · exact h
      · split
        · split
          · exact h
          · split
            · exact h
            · exact clientInv_respServersLoop own f.payload _ _ s h
        · split
          · split
            · exact h
            · split
              · exact h
              · split
                · exact h
                · split
                  · exact h
                  · exact h
          · split
            · split
              · exact h
              · exact h
            · split
              · exact clientInv_handleQueryResponse f h
              · exact h

theorem clientInv_dispatch (cr : Crypto) (priv own selfAddr : List Nat)
    (now c : Nat) (f : Frame) {s : NodeState} (h : ClientInv s) :
    ClientInv (dispatch cr priv own selfAddr now c f s).1 := by
  unfold dispatch
  split
  · exact clientInv_handshakeHandle cr priv own now c f h
  · split
    · exact clientInv_dataHandle own c f h
    · split
      · exact clientInv_nodeInfoHandle own selfAddr c f h
      · split
        · exact clientInv_dataHandle own c f h
        · exact clientInv_markClosed c h

theorem clientInv_closeOutbound (c : Nat) {s : NodeState} (h : ClientInv s) :
    ClientInv (closeOutbound c s) := by
  unfold closeOutbound
  exact clientInv_of_eq rfl rfl rfl rfl (clientInv_markClosed c h)

theorem clientInv_step {cr : Crypto} {priv own selfAddr : List Nat}
    {s s' : NodeState} (hstep : Step cr priv own selfAddr s s')
    (h : ClientInv s) : ClientInv s' := by
  cases hstep with
  | accept ch s => exact clientInv_acceptConn ch h
  | dial ch s => exact clientInv_dialConn ch h
  | deliver c f now s hopen => exact clientInv_dispatch cr priv own selfAddr now c f h
  | closeIn c s => exact clientInv_markClosed c h
  | closeOut c s => exact clientInv_closeOutbound c h
  | queryTimeout k s => exact clientInv_of_eq rfl rfl rfl rfl h

theorem clientInv_reachable {cr : Crypto} {priv own selfAddr : List Nat}
    {s : NodeState} (h : Reachable cr priv own selfAddr s) : ClientInv s := by
  unfold Reachable at h
  induction h with
  | refl => exact clientInv_initState
  | tail hab hbc ih => exact clientInv_step hbc ih

/-- C3 (amended) — At every reachable state the local-client directory
satisfies `ClientInv`: at most one record per public key; lookup-by-key
and lookup-by-session are mutually consistent (each record is registered
in the reverse index under its session, and each reverse-index entry is
backed by its record); every *open* session classified as a client has
exactly one record (uniqueness following from the reverse index), and
every record's session is classified as a client.  Moreover, when an
already-present client key re-authenticates on a new session, the single
atomic handler step closes the old record's session, removes the old
record, and installs the new one: afterwards the old session is closed,
the key maps to the new record, and no record names the old session. -/
theorem client_directory_consistency :
    (∀ (cr : Crypto) (priv own selfAddr : List Nat) (s : NodeState),
      Reachable cr priv own selfAddr s → ClientInv s) ∧
    (∀ (cr : Crypto) (own : List Nat) (now c : Nat) (f : Frame) (s : NodeState)
      (old : ClientInfo) (exp : List Nat),
      ClientInv s →
      mget f.senderId s.clients = some old →
      s.peerTypeOf c ≠ some PT.server →
      s.pendingOf c = some exp →
      f.payload = exp →
      mget f.senderId s.servers = none →
      cr.verify f.senderId f.payload (f.signature.getD []) = true →
      ((handleAuthentication cr own now c f s).1.isOpen old.conn = false ∧
       mget f.senderId (handleAuthentication cr own now c f s).1.clients =
         some ⟨f.senderId, c, now⟩ ∧
       (∀ k r, mget k (handleAuthentication cr own now c f s).1.clients = some r →
         r.conn ≠ old.conn))) := by
  constructor
  · intro cr priv own selfAddr s h
    exact clientInv_reachable h
  · intro cr own now c f s old exp hInv hold hpt hpd hpl hsrv hv
    obtain ⟨h1, h2, h3, h4, h5, h6, h7⟩ := hInv
    have holdc : old.conn ≠ c := by
      intro heq
      have hn := (h5 f.senderId old hold).1
      rw [heq, hpd] at hn
      cases hn
    have hold1 : mget f.senderId (setPending c none s).clients = some old := by
      simp only [setPending, clients_updateConn]
      exact hold
    have hred : (handleAuthentication cr own now c f s).1 =
        (installClient f.senderId c now (setPending c none s)).1 := by
      unfold handleAuthentication
      rw [if_neg (by rw [hv]; simp)]
      rw [if_neg hpt]
      simp only [hpd]
      rw [if_neg (by rw [hpl]; simp)]
      have hsv : mget f.senderId (setPending c none s).servers = none := by
        simp only [setPending, servers_updateConn]
        exact hsrv
      simp only [hsv]
    have hS : (handleAuthentication cr own now c f s).1 =
        setPeerType c (some PT.client)
          { markClosed old.conn (setPending c none s) with
              clients := mset f.senderId ⟨f.senderId, c, now⟩
                (mdel f.senderId (markClosed old.conn (setPending c none s)).clients),
              clientConn := mset c f.senderId
                (mdel old.conn (markClosed old.conn (setPending c none s)).clientConn) } := by
      rw [hred]
      unfold installClient
      simp only [hold1]
    have hmc : (markClosed old.conn (setPending c none s)).clients = s.clients := by
      simp [markClosed, setPending]
    refine ⟨?_, ?_, ?_⟩
    · rw [hS, isOpen_setPeerType, isOpen_set_dirs]
      exact isOpen_markClosed_self _ _
    · rw [hS]
      simp only [setPeerType, clients_updateConn]
      exact mget_mset_self _ _ _
    · intro k r hk
      rw [hS] at hk
      simp only [setPeerType, clients_updateConn] at hk
      rw [hmc] at hk
      by_cases hkpk : k = f.senderId
      · subst hkpk
        rw [mget_mset_self] at hk
        cases hk
        exact fun heq => holdc heq.symm
      · rw [mget_mset_ne _ _ _ _ hkpk, mget_mdel_ne _ _ _ hkpk] at hk
        intro heq
        have e1 := h3 k r hk
        have e2 := h3 f.senderId old hold
        rw [heq] at e1
        exact hkpk (Option.some_inj.mp (e1.symm.trans e2))

/-- C3 counterexample — the claim as frozen quantifies over every session
classified as a client.  After client `exKeyA` authenticates on session 0
and then re-authenticates on session 1, session 0 is still classified as
a client (`peerType` is never reset), yet no record names it: the claimed
session↔record bijection fails at the reachable state `exReauth4`. -/
theorem client_directory_claim_fails :
    Reachable exCryptoOk [] exOwnKey [] exReauth4 ∧
    exReauth4.peerTypeOf 0 = some PT.client ∧
    exReauth4.clients.all (fun p => p.2.conn != 0) = true := by
  refine ⟨?_, by decide, by decide⟩
  have h1 : Step exCryptoOk [] exOwnKey [] initState exReauth1 :=
    Step.accept exChal initState
  have h2 : Step exCryptoOk [] exOwnKey [] exReauth1 exReauth2 :=
    Step.deliver 0 exAuthFrameA 5 exReauth1 (by decide)
  have h3 : Step exCryptoOk [] exOwnKey [] exReauth2 exReauth3 :=
    Step.accept exChal exReauth2
  have h4 : Step exCryptoOk [] exOwnKey [] exReauth3 exReauth4 :=
    Step.deliver 1 exAuthFrameA 6 exReauth3 (by decide)
  exact Relation.ReflTransGen.tail (Relation.ReflTransGen.tail
    (Relation.ReflTransGen.tail (Relation.ReflTransGen.tail
      Relation.ReflTransGen.refl h1) h2) h3) h4

/-- C3 witness: the invariant at the reachable state `exReauth2`, and the
re-authentication step evaluated at the concrete displacement of
`exKeyA` from session 0 to session 1. -/
theorem client_directory_consistency_witness :
    ClientInv exReauth2 ∧
    ((handleAuthentication exCryptoOk exOwnKey 6 1 exAuthFrameA exReauth3).1.isOpen 0 = false ∧
     mget exKeyA (handleAuthentication exCryptoOk exOwnKey 6 1 exAuthFrameA
       exReauth3).1.clients = some ⟨exKeyA, 1, 6⟩ ∧
     (∀ k r, mget k (handleAuthentication exCryptoOk exOwnKey 6 1 exAuthFrameA
       exReauth3).1.clients = some r → r.conn ≠ 0)) := by
  have h1 : Step exCryptoOk [] exOwnKey [] initState exReauth1 :=
    Step.accept exChal initState
  have h2 : Step exCryptoOk [] exOwnKey [] exReauth1 exReauth2 :=
    Step.deliver 0 exAuthFrameA 5 exReauth1 (by decide)
  have h3 : Step exCryptoOk [] exOwnKey [] exReauth2 exReauth3 :=
    Step.accept exChal exReauth2
  have hr2 : Reachable exCryptoOk [] exOwnKey [] exReauth2 :=
    Relation.ReflTransGen.tail (Relation.ReflTransGen.tail
      Relation.ReflTransGen.refl h1) h2
  have hr3 : Reachable exCryptoOk [] exOwnKey [] exReauth3 :=
    Relation.ReflTransGen.tail hr2 h3
  have hmain :=
    client_directory_consistency.2 exCryptoOk exOwnKey 6 1 exAuthFrameA
      exReauth3 ⟨exKeyA, 0, 5⟩ exChal
      (client_directory_consistency.1 exCryptoOk [] exOwnKey [] exReauth3 hr3)
      (by decide) (by decide) (by decide) (by decide) (by decide) (by decide)
  exact ⟨client_directory_consistency.1 exCryptoOk [] exOwnKey [] exReauth2 hr2,
    hmain.1, hmain.2.1, hmain.2.2⟩

end Exvia
